import Mathlib

/-!
# Verification of the fastNLP core training/evaluation loop

A shallow embedding of `src/fastNLP/core/trainer.py` and
`src/fastNLP/core/tester.py`, together with proofs about the claims of the
natural-language specification.

Conventions of the embedding:
* Python dicts with string keys are association lists `SMap V`
  (`List (String × V)`), with Python insertion-order semantics.
* A dataset is a `List (Row α)`: each row carries its named input fields
  (`x`) and target fields (`y`), a field value having type `α`.  A batch
  tensor stacks the per-row values of one field into a `List α`.
* Fallible Python code returns `Except PyError _`; an exception type plus
  raise site is one `PyError` constructor.
* Side effects that matter to the claims (device moves, forward calls,
  optimizer steps, validations, checkpoint saves, mode switches,
  `torch.no_grad` scope) are recorded in an event trace `List Ev`.
* Tensor mathematics, devices and gradients are outside the value model
  (the spec lists them as non-goals); only the shape-level facts the code
  branches on (is the loss a tensor, is it a scalar) are modelled.
-/

/-- Exceptions raised by the embedded code, one constructor per raise site
(or per Python-runtime failure mode). -/
inductive PyError where
  /-- `TypeError` from `Trainer.data_forward` / `_check_code`: the model
  forward returned a non-dict. -/
  | typeErrorForwardNotDict
  /-- `TypeError` from `_check_code`: the loss value is not a `torch.Tensor`. -/
  | typeErrorLossNotTensor
  /-- `ValueError` from `_check_code`: the loss tensor is not a scalar. -/
  | valueErrorLossNotScalar
  /-- `ValueError` from `Trainer.__init__`: "No metric for dev_data evaluation." -/
  | valueErrorNoMetricForDev
  /-- `ValueError` from `Trainer.__init__`: "No dev_data for evaluations, ...". -/
  | valueErrorNoDevForMetrics
  /-- Python `AttributeError` for the named attribute. -/
  | attributeError (name : String)
  /-- Python `KeyError` for the named key. -/
  | keyError (name : String)
  /-- `fastNLP.core.utils.CheckError` (or the diagnostic error raised by the
  check helpers when reporting a signature mismatch). -/
  | checkError
  /-- PyTorch `RuntimeError` from calling `backward()` on a non-scalar tensor. -/
  | runtimeErrorBackwardNonScalar
  /-- Python `AssertionError` (the `assert isinstance(prediction, dict)` in
  `Tester.test`). -/
  | assertionError
deriving DecidableEq, Repr

/-- Whether an exception is a Python `ValueError`. -/
def PyError.isValueError : PyError → Bool
  | .valueErrorLossNotScalar => true
  | .valueErrorNoMetricForDev => true
  | .valueErrorNoDevForMetrics => true
  | _ => false

/-- A Python dict with string keys, as an insertion-ordered association list. -/
abbrev SMap (V : Type) := List (String × V)

/-- The return value of a model forward call: either a dict of named values
or some non-dict object (the code only branches on `isinstance(y, dict)`). -/
inductive PyRet (V : Type) where
  | dict : SMap V → PyRet V
  | nondict : PyRet V
deriving DecidableEq, Repr

/-- The value returned by a loss callable: a tensor with a shape (scalar iff
the shape is `[]`) and a numeric value, or some non-tensor object.  The code
only branches on `isinstance(loss, torch.Tensor)` and `len(loss.size())`. -/
inductive LossVal where
  | tensor (size : List Nat) (val : Rat)
  | nontensor
deriving DecidableEq, Repr

/-- Observable events of one run, in program order. -/
inductive Ev where
  /-- `model.eval()` -/
  | setModeEval
  /-- `model.train()` -/
  | setModeTrain
  /-- entering the `torch.no_grad()` context -/
  | noGradBegin
  /-- leaving the `torch.no_grad()` context -/
  | noGradEnd
  /-- `_move_dict_value_to_device(...)` on one batch -/
  | moveToDevice
  /-- one call of the model forward / predict function -/
  | forwardCall
  /-- one call of the loss callable -/
  | lossCall
  /-- `model.zero_grad()` -/
  | zeroGrad
  /-- `loss.backward()` -/
  | backward
  /-- `optimizer.step()` -/
  | optStep
  /-- one `SummaryWriter.add_scalar(...)` call -/
  | logScalar
  /-- a console print -/
  | printLog
  /-- one metric invocation, tagged with the metric class name -/
  | metricCall (name : String)
  /-- start of the training pass numbered `e` (epochs count from 1) -/
  | epochStart (e : Nat)
  /-- a mid-epoch validation triggered at global step `s` -/
  | midValidate (s : Nat)
  /-- the end-of-epoch validation of epoch `e` -/
  | endEpochValidate (e : Nat)
  /-- `Trainer.save_model(...)` (a checkpoint save) -/
  | saveModel
deriving DecidableEq, Repr

/-- Events that `Tester.test` can emit. -/
def Ev.isTesterEv : Ev → Bool
  | .setModeEval => true
  | .setModeTrain => true
  | .noGradBegin => true
  | .noGradEnd => true
  | .moveToDevice => true
  | .forwardCall => true
  | .printLog => true
  | .metricCall _ => true
  | _ => false

/-- Events that `Trainer.do_validation` can emit. -/
def Ev.isValidationEv (e : Ev) : Bool :=
  e.isTesterEv || e == .logScalar || e == .saveModel

/-- Project an `epochStart` event to its epoch number. -/
def evEpochStart : Ev → Option Nat
  | .epochStart e => some e
  | _ => none

/-- Project an `endEpochValidate` event to its epoch number. -/
def evEndEpoch : Ev → Option Nat
  | .endEpochValidate e => some e
  | _ => none

/-- Project a `metricCall` event to the metric class name. -/
def evMetricName : Ev → Option String
  | .metricCall n => some n
  | _ => none

/-- Dict lookup (first binding wins, as in a Python dict kept duplicate-free). -/
def alookup (k : String) (m : SMap V) : Option V :=
  (m.find? (fun kv => kv.1 == k)).map (fun kv => kv.2)

/-- All values bound to `k` in `m`, in order. -/
def valuesOf (k : String) (m : SMap V) : List V :=
  (m.filter (fun kv => kv.1 == k)).map (fun kv => kv.2)

/-- Python `d[k] = v` on a dict: overwrite in place, or append a new binding. -/
def dictInsert (k : String) (v : V) : SMap V → SMap V
  | [] => [(k, v)]
  | (k₁, v₁) :: rest =>
      if k₁ == k then (k, v) :: rest else (k₁, v₁) :: dictInsert k v rest

/-- `defaultdict(list)`-style append: `m[k].append(v)`, creating the entry at
the end if `k` is unbound. -/
def dappend (k : String) (v : V) : SMap (List V) → SMap (List V)
  | [] => [(k, [v])]
  | (k₁, vs) :: rest =>
      if k₁ == k then (k₁, vs ++ [v]) :: rest else (k₁, vs) :: dappend k v rest

/-- `for k, v in d.items(): m[k].append(v)` on a `defaultdict(list)`. -/
def dinsertAll (d : SMap V) (m : SMap (List V)) : SMap (List V) :=
  d.foldl (fun acc kv => dappend kv.1 kv.2 acc) m

/-- Total lookup into a `defaultdict(list)`: the list bound to `k`, `[]` if absent. -/
def dget (k : String) (m : SMap (List V)) : List V :=
  (alookup k m).getD []

/-- A dataset row: its named input fields and named target fields. -/
structure Row (α : Type) where
  x : SMap α
  y : SMap α
deriving DecidableEq, Repr

/-- The two field dicts a batch yields: `(batch_x, batch_y)`, each field
bound to the stacked per-row values. -/
abbrev BatchPair (α : Type) := SMap (List α) × SMap (List α)

/-- Split a list into consecutive chunks of `bs` elements (the last chunk may
be shorter).  For `bs = 0` the result is `[]`; the batch iterator is only
meaningful for a positive batch size. -/
def chunkFuel (bs : Nat) : Nat → List ρ → List (List ρ)
  | _, [] => []
  | 0, _ :: _ => []
  | fuel + 1, r :: rest =>
      if bs = 0 then []
      else (r :: rest).take bs :: chunkFuel bs fuel ((r :: rest).drop bs)

def chunk (bs : Nat) (l : List ρ) : List (List ρ) := chunkFuel bs l.length l

/-- Collate one side (input or target fields) of a chunk of rows: each field
name occurring in the chunk is bound to the list of that field's values, row
by row. -/
def collateSide (proj : Row α → SMap α) (rows : List (Row α)) : SMap (List α) :=
  (((rows.map proj).flatten.map (fun kv => kv.1)).dedup).map
    (fun k => (k, rows.filterMap (fun r => alookup k (proj r))))

/-- Collate a chunk of rows into one `(batch_x, batch_y)` pair. -/
def collate (rows : List (Row α)) : BatchPair α :=
  (collateSide Row.x rows, collateSide Row.y rows)

/-- Modelled from the spec: the batch iterator (`fastNLP.core.batch.Batch`,
whose code is not under `src/`) "yields (input-fields, target-fields)
mappings from a dataset, in either sequential or randomized order, for a
fixed batch size".  Given the rows already placed in iteration order, it
takes them in chunks of `bs` and collates each chunk fieldwise.  A
`SequentialSampler` leaves the rows in dataset order; a `RandomSampler` is
modelled by the caller permuting the rows first. -/
def batchIter (bs : Nat) (rows : List (Row α)) : List (BatchPair α) :=
  (chunk bs rows).map collate

/-- Modelled from the spec: the signature matcher `_build_args`
(`fastNLP.core.utils`, not under `src/`) — "given a callable's declared
parameter names and a mapping of available named values, produces the subset
of values the callable actually accepts".  It keeps exactly the named values
whose names the callable declares. -/
def build_args (params : List String) (x : SMap V) : SMap V :=
  x.filter (fun kv => params.contains kv.1)

/-- Modelled from the spec: `_check_forward_error` (`fastNLP.core.utils`, not
under `src/`) — the signature matcher "reports which required names are
missing": it raises a check error when the forward callable declares a
parameter that the batch does not provide. -/
def check_forward_error (params : List String) (bx : SMap V) : Except PyError Unit :=
  if params.all (fun p => bx.any (fun kv => kv.1 == p)) then .ok () else .error .checkError

/-- A callable with declared parameter names (a model `forward` or `predict`
bound method).  Its result is a dict of named values or a non-dict. -/
structure FModel (V : Type) where
  params : List String
  func : SMap V → PyRet V

/-- A prepared metric object.  Its class name keys the score dict.  `f` maps
the per-field prediction and truth iterables it is handed to its score
together with the contents those iterables have left after the call (a
metric that materialises its inputs returns them emptied; `itertools.chain`
iterators are single-use). -/
structure Metric (α γ : Type) where
  className : String
  f : SMap (List α) → SMap (List α) → γ × (SMap (List α) × SMap (List α))

/-- Modelled from the spec: `_prepare_metrics` (`fastNLP.core.metrics`, not
under `src/`) wraps each user-supplied scoring object so that the signature
matcher can feed it the fields it declares; for already-prepared metric
objects (the only kind the embedding manipulates) it is the identity. -/
def prepare_metrics (ms : List (Metric α γ)) : List (Metric α γ) := ms

/-- Modelled from the spec: `_prepare_losser` (`fastNLP.core.losses`, not
under `src/`) wraps the user loss callable analogously; the identity on an
already-prepared loss callable. -/
def prepare_losser (l : SMap (List α) → SMap (List α) → Except PyError LossVal) :
    SMap (List α) → SMap (List α) → Except PyError LossVal := l

/-- A constructed `Tester` object: the attribute values `Tester.test` reads.
`predict_func` is `self._predict_func` (the model's `predict` attribute when
it has one, otherwise its `forward`). -/
structure Tester (α γ : Type) where
  data : List (Row α)
  predict_func : FModel (List α)
  metrics : List (Metric α γ)
  batch_size : Nat
  verbose : Int

/-- One `self.<attr>` access inside a constructor body. -/
inductive InitStmt where
  | assign (attr : String)
  | readAttr (attr : String)
deriving DecidableEq, Repr

/-- Run a constructor's attribute accesses against the set of attributes
assigned so far: reading an attribute never assigned raises
`AttributeError`, as in Python. -/
def runInit : List InitStmt → List String → Except PyError (List String)
  | [], env => .ok env
  | .assign a :: rest, env => runInit rest (a :: env)
  | .readAttr a :: rest, env =>
      if a ∈ env then runInit rest env else .error (.attributeError a)

/-- The `self.<attr>` reads and writes performed by `Tester.__init__`
(tester.py lines 20-49), in source order.  `hasPredict` is whether
`self._model` would have a `predict` attribute; `cudaAvail` is whether
`torch.cuda.is_available()` would return `True` (its `and` short-circuits
the read of `self.use_cuda` on line 41).  Lines 23-26 are `isinstance`
checks on the arguments and touch no `self` attribute. -/
def testerInitAccesses (hasPredict cudaAvail : Bool) : List InitStmt :=
  [.assign "metrics",                       -- line 28
   .readAttr "_model"] ++                   -- line 31: hasattr(self._model, ...)
  (if hasPredict then
    [.readAttr "_model", .assign "_predict_func"]   -- line 32
   else
    [.readAttr "_model", .assign "_predict_func"]) ++  -- line 38
  [.assign "data"] ++                       -- line 40
  (if cudaAvail then [.readAttr "use_cuda"] else []) ++  -- line 41
  [.assign "_model",                        -- line 42 / 44
   .assign "use_cuda",                      -- line 45
   .assign "batch_size",                    -- line 46
   .assign "verbose",                       -- line 47
   .assign "_model_device"]                 -- line 49

/-- `Tester.__init__(data, model, metrics, batch_size, use_cuda, verbose)`.
`predictAttr` is the model's `predict` attribute when it has one.  The body
is run as its sequence of attribute accesses (a CPU environment is modelled,
`cudaAvail = false`; the outcome does not depend on it).  Only if every
access succeeds is the object built. -/
def Tester.init (data : List (Row α)) (model : FModel (List α))
    (predictAttr : Option (FModel (List α))) (metrics : List (Metric α γ))
    (batch_size : Nat) (_use_cuda : Bool) (verbose : Int) :
    Except PyError (Tester α γ) :=
  match runInit (testerInitAccesses predictAttr.isSome false) [] with
  | .error e => .error e
  | .ok _ =>
      .ok ⟨data, predictAttr.getD model, prepare_metrics metrics, batch_size, verbose⟩

/-- `Tester._data_forward(func, x)` (tester.py lines 100-104): filter the
batch through the signature matcher, then call the function. -/
def Tester.dataForward (m : FModel V) (x : SMap V) : PyRet V :=
  m.func (build_args m.params x)

/-- The fields of the prediction dict a forward call yields on a batch
(`[]` in the non-dict case, which aborts `Tester.test` by assertion and so
never contributes to an accumulation). -/
def predFields (m : FModel V) (bx : SMap V) : SMap V :=
  match Tester.dataForward m bx with
  | .dict d => d
  | .nondict => []

/-- The batch loop of `Tester.test` (tester.py lines 59-66): for each batch,
move it to the model device, forward it, assert the prediction is a dict,
and append each prediction field to `output` and each target field to
`truths`.  Returns the two accumulators and the emitted events. -/
def accumBatches (m : FModel (List α)) :
    List (BatchPair α) → SMap (List (List α)) × SMap (List (List α)) →
    Except PyError ((SMap (List (List α)) × SMap (List (List α))) × List Ev)
  | [], acc => .ok (acc, [])
  | b :: rest, acc =>
      match Tester.dataForward m b.1 with
      | .nondict => .error .assertionError
      | .dict d =>
          match accumBatches m rest (dinsertAll d acc.1, dinsertAll b.2 acc.2) with
          | .error e => .error e
          | .ok (acc₂, evs) => .ok (acc₂, [Ev.moveToDevice, Ev.forwardCall] ++ evs)

/-- The metric loop of `Tester.test` (tester.py lines 72-76): each metric is
called once on the (shared, single-use) chained iterables; its score is
stored under its class name, and the iterables keep whatever contents the
metric left unconsumed. -/
def runMetrics : List (Metric α γ) → SMap (List α) → SMap (List α) → SMap γ → SMap γ
  | [], _, _, er => er
  | m :: ms, out, tru, er =>
      let r := m.f out tru
      runMetrics ms r.2.1 r.2.2 (dictInsert m.className r.1 er)

/-- `Tester.test` (tester.py lines 51-86) with its event trace: switch the
model to eval mode, run the batch iterator (sequential order) once under
`torch.no_grad()` accumulating predictions and truths, chain each
accumulated list of batch tensors into one iterable, apply the metrics
(outside the `no_grad` block, as in the source), print if `verbose >= 0`,
switch the model back to train mode and return the score dict. -/
def Tester.testT (t : Tester α γ) : Except PyError (SMap γ × List Ev) :=
  match accumBatches t.predict_func (batchIter t.batch_size t.data) ([], []) with
  | .error e => .error e
  | .ok ((out, tru), bevs) =>
      let outF := out.map (fun kv => (kv.1, kv.2.flatten))
      let truF := tru.map (fun kv => (kv.1, kv.2.flatten))
      let results := runMetrics t.metrics outF truF []
      .ok (results,
        [Ev.setModeEval, Ev.noGradBegin] ++ bevs ++ [Ev.noGradEnd] ++
        t.metrics.map (fun m => Ev.metricCall m.className) ++
        (if t.verbose ≥ 0 then [Ev.printLog] else []) ++
        [Ev.setModeTrain])

/-- `Tester.test`, result only. -/
def Tester.test (t : Tester α γ) : Except PyError (SMap γ) :=
  (Tester.testT t).map (fun p => p.1)

/-- The type of a prepared loss callable: maps the prediction dict and the
target dict to a loss value (it may raise a `CheckError` on a signature
mismatch, which its wrapper reports). -/
abbrev Losser (α : Type) := SMap (List α) → SMap (List α) → Except PyError LossVal

/-- `loss.backward()`: a non-tensor has no `backward` attribute; PyTorch
rejects implicit backward on a non-scalar tensor; on a scalar tensor it
succeeds (gradient values are outside the model). -/
def lossBackward : LossVal → Except PyError Unit
  | .nontensor => .error (.attributeError "backward")
  | .tensor size _ => if size = [] then .ok () else .error .runtimeErrorBackwardNonScalar

/-- The mutable trainer state the claims are about: the global step counter
and `self._best_accuracy`. -/
structure TrState where
  step : Nat
  best_accuracy : Rat
deriving DecidableEq, Repr

/-- A constructed `Trainer` object: the attribute values its methods read.
`tester` is `self.tester`, present exactly when `dev_data` was given (the
truthiness test `if self.dev_data` on a non-`None` dataset is modelled as
presence).  `shuffle` models the `RandomSampler`: the row order it draws for
each epoch (spec: the batch iterator yields batches "in either sequential or
randomized order"); theorems that need it assume each draw is a permutation
of the dataset.  `eval_sort_key` is the optional kwarg attribute of the same
name. -/
structure Trainer (α : Type) where
  train_data : List (Row α)
  model : FModel (List α)
  losser : Losser α
  n_epochs : Nat
  batch_size : Nat
  print_every : Int
  validate_every : Int
  save_path : Option String
  tester : Option (Tester α Rat)
  eval_sort_key : Option String
  shuffle : Nat → List (Row α) → List (Row α)

/-- `Trainer.data_forward` (trainer.py lines 194-199): filter the batch
through the signature matcher, call the network, and require a dict result. -/
def Trainer.data_forward (m : FModel V) (x : SMap V) : Except PyError (SMap V) :=
  match m.func (build_args m.params x) with
  | .dict d => .ok d
  | .nondict => .error .typeErrorForwardNotDict

/-- The accuracy `Trainer.best_eval_result` (trainer.py lines 227-247) reads
out of the score dict `Tester.test` returned: the single value of a
one-entry dict, otherwise the entry at `self.eval_sort_key` (an absent
attribute raises `AttributeError`, an absent key `KeyError`). -/
def Trainer.extractScore (sortKey : Option String) (res : SMap Rat) : Except PyError Rat :=
  if res.length = 1 then
    match res with
    | (_, v) :: _ => .ok v
    | [] => .error .assertionError
  else
    match sortKey with
    | none => .error (.attributeError "eval_sort_key")
    | some k =>
        match alookup k res with
        | some v => .ok v
        | none => .error (.keyError k)

/-- `Trainer.best_eval_result(metrics)` on the dict `Tester.test` returns
(trainer.py lines 227-247): extract the accuracy; if it strictly exceeds
`self._best_accuracy`, update the best and return `True`, else `False`. -/
def Trainer.best_eval_result (sortKey : Option String) (best : Rat) (res : SMap Rat) :
    Except PyError (Bool × Rat) :=
  match Trainer.extractScore sortKey res with
  | .error e => .error e
  | .ok accuracy =>
      if best < accuracy then .ok (true, accuracy) else .ok (false, accuracy)

/-- The decision part of `Trainer.do_validation` (trainer.py lines 173-174):
`if self.save_path is not None and self.best_eval_result(res): save_model`.
The Python `and` short-circuits: with `save_path = None`,
`best_eval_result` is never invoked and the best accuracy is unchanged.
Returns the new best accuracy and whether a checkpoint is saved. -/
def Trainer.validation_update (save_path : Option String) (sortKey : Option String)
    (best : Rat) (res : SMap Rat) : Except PyError (Rat × Bool) :=
  match save_path with
  | none => .ok (best, false)
  | some _ =>
      match Trainer.best_eval_result sortKey best res with
      | .error e => .error e
      | .ok (better, best₂) => .ok (if better then best₂ else best, better)

/-- `Trainer.do_validation` (trainer.py lines 169-174): run the dev tester,
log each returned score, then the save decision.  Reading `self.tester` when
no dev data was given raises `AttributeError` (the attribute is only
assigned when `dev_data is not None`). -/
def Trainer.do_validation (tr : Trainer α) (st : TrState) :
    Except PyError (TrState × List Ev) :=
  match tr.tester with
  | none => .error (.attributeError "tester")
  | some t =>
      match Tester.testT t with
      | .error e => .error e
      | .ok (res, tevs) =>
          match Trainer.validation_update tr.save_path tr.eval_sort_key
              st.best_accuracy res with
          | .error e => .error e
          | .ok (best₂, saved) =>
              .ok (⟨st.step, best₂⟩,
                tevs ++ res.map (fun _ => Ev.logScalar) ++
                (if saved then [Ev.saveModel] else []))

/-- A sequence of validations as `Trainer.do_validation` performs them,
starting from best accuracy `best`, each validation receiving the given
score dict from the tester; returns the final best accuracy and, per
validation, whether a checkpoint was saved. -/
def Trainer.runValidations (save_path sortKey : Option String) :
    Rat → List (SMap Rat) → Except PyError (Rat × List Bool)
  | best, [] => .ok (best, [])
  | best, res :: rest =>
      match Trainer.validation_update save_path sortKey best res with
      | .error e => .error e
      | .ok (best₂, saved) =>
          match Trainer.runValidations save_path sortKey best₂ rest with
          | .error e => .error e
          | .ok (bestF, saves) => .ok (bestF, saved :: saves)

/-- The body of the `for batch_x, batch_y in data_iterator` loop of
`Trainer._train_epoch` (trainer.py lines 144-167) on one batch: move the
batch to the model device, forward (`data_forward`), loss (`get_loss`),
`grad_backward` (`model.zero_grad()` then `loss.backward()`), `update`
(`optimizer.step()`), log the loss, optionally print, optionally validate
mid-epoch (`validate_every > 0` and `step % validate_every == 0`), and
increment `self.step`. -/
def Trainer.processBatch (tr : Trainer α) (st : TrState) (b : BatchPair α) :
    Except PyError (TrState × List Ev) :=
  match Trainer.data_forward tr.model b.1 with
  | .error e => .error e
  | .ok pred =>
      match tr.losser pred b.2 with
      | .error e => .error e
      | .ok loss =>
          match lossBackward loss with
          | .error e => .error e
          | .ok _ =>
            let evs₀ := [Ev.moveToDevice, Ev.forwardCall, Ev.lossCall,
                         Ev.zeroGrad, Ev.backward, Ev.optStep, Ev.logScalar] ++
              (if 0 < tr.print_every ∧ (st.step : Int) % tr.print_every = 0
               then [Ev.printLog] else [])
            if 0 < tr.validate_every ∧ (st.step : Int) % tr.validate_every = 0 then
              match Trainer.do_validation tr st with
              | .error e => .error e
              | .ok (st₂, vevs) =>
                  .ok (⟨st.step + 1, st₂.best_accuracy⟩,
                       evs₀ ++ [Ev.midValidate st.step] ++ vevs)
            else
              .ok (⟨st.step + 1, st.best_accuracy⟩, evs₀)

/-- The batch loop of `Trainer._train_epoch` over a list of batches. -/
def Trainer.runBatches (tr : Trainer α) :
    TrState → List (BatchPair α) → Except PyError (TrState × List Ev)
  | st, [] => .ok (st, [])
  | st, b :: rest =>
      match Trainer.processBatch tr st b with
      | .error e => .error e
      | .ok (st₂, evs) =>
          match Trainer.runBatches tr st₂ rest with
          | .error e => .error e
          | .ok (st₃, evs₂) => .ok (st₃, evs ++ evs₂)

/-- One iteration of the epoch loop of `Trainer.train` (trainer.py lines
122-131): build the batch iterator over the training data in the random
order drawn for this epoch, run `_train_epoch`, then — "validate_every
override validation at end of epochs" — validate iff dev data is present
and `validate_every <= 0`. -/
def Trainer.runEpoch (tr : Trainer α) (st : TrState) (epoch : Nat) :
    Except PyError (TrState × List Ev) :=
  match Trainer.runBatches tr st (batchIter tr.batch_size (tr.shuffle epoch tr.train_data)) with
  | .error e => .error e
  | .ok (st₂, evs) =>
      if tr.tester.isSome ∧ tr.validate_every ≤ 0 then
        match Trainer.do_validation tr st₂ with
        | .error e => .error e
        | .ok (st₃, vevs) =>
            .ok (st₃, Ev.epochStart epoch :: evs ++ Ev.endEpochValidate epoch :: vevs)
      else
        .ok (st₂, Ev.epochStart epoch :: evs)

/-- The `while epoch <= self.n_epochs` loop: run `remaining` epochs starting
with epoch number `epoch`. -/
def Trainer.epochLoop (tr : Trainer α) :
    TrState → Nat → Nat → Except PyError (TrState × List Ev)
  | st, _, 0 => .ok (st, [])
  | st, epoch, remaining + 1 =>
      match Trainer.runEpoch tr st epoch with
      | .error e => .error e
      | .ok (st₂, evs) =>
          match Trainer.epochLoop tr st₂ (epoch + 1) remaining with
          | .error e => .error e
          | .ok (st₃, evs₂) => .ok (st₃, evs ++ evs₂)

/-- `Trainer.train` (trainer.py lines 96-134) from the state `__init__` set
up (`self.step = 0`, `self._best_accuracy = 0`): switch the model to train
mode, then run epochs `1 .. n_epochs`. -/
def Trainer.train (tr : Trainer α) : Except PyError (TrState × List Ev) :=
  match Trainer.epochLoop tr ⟨0, 0⟩ 1 tr.n_epochs with
  | .error e => .error e
  | .ok (st, evs) => .ok (st, Ev.setModeTrain :: evs)

/-- trainer.py line 250. -/
def DEFAULT_CHECK_BATCH_SIZE : Nat := 2

/-- trainer.py line 251. -/
def DEFAULT_CHECK_NUM_BATCH : Nat := 2

/-- The batch loop of `_check_code` (trainer.py lines 260-293), with the
running `batch_count`.  Per batch: move it to the model device; on the first
batch run `_check_forward_error`; forward through the signature matcher and
require a dict result (`TypeError`); compute the loss, and on the first
batch require a tensor (`TypeError`) and a scalar (`ValueError`); run
`loss.backward()` and `model.zero_grad()`; stop after
`DEFAULT_CHECK_NUM_BATCH` batches.  A `CheckError` out of the loss callable
is diagnosed by `_check_loss_evaluate` (not under `src/`; modelled from the
spec as raising the actionable signature-mismatch error). -/
def checkBatches (model : FModel (List α)) (losser : Losser α) :
    Nat → List (BatchPair α) → Except PyError (List Ev)
  | _, [] => .ok []
  | bc, b :: rest =>
      match (if bc = 0 then check_forward_error model.params b.1 else .ok ()) with
      | .error e => .error e
      | .ok _ =>
          match model.func (build_args model.params b.1) with
          | .nondict => .error .typeErrorForwardNotDict
          | .dict output =>
              match losser output b.2 with
              | .error _ => .error .checkError
              | .ok loss =>
                  match (if bc = 0 then
                           match loss with
                           | LossVal.nontensor => Except.error PyError.typeErrorLossNotTensor
                           | LossVal.tensor size _ =>
                               if size = [] then Except.ok ()
                               else Except.error PyError.valueErrorLossNotScalar
                         else Except.ok ()) with
                  | .error e => .error e
                  | .ok _ =>
                      match lossBackward loss with
                      | .error e => .error e
                      | .ok _ =>
                          if DEFAULT_CHECK_NUM_BATCH ≤ bc + 1 then
                            .ok [Ev.moveToDevice, Ev.forwardCall, Ev.lossCall,
                                 Ev.backward, Ev.zeroGrad]
                          else
                            match checkBatches model losser (bc + 1) rest with
                            | .error e => .error e
                            | .ok evs =>
                                .ok ([Ev.moveToDevice, Ev.forwardCall, Ev.lossCall,
                                      Ev.backward, Ev.zeroGrad] ++ evs)

/-- `_check_code` (trainer.py lines 253-298): run the check-batch loop over
the dataset in sequential order with batch size `DEFAULT_CHECK_BATCH_SIZE`;
when dev data is given, additionally construct a `Tester` over the first
`batch_size * DEFAULT_CHECK_NUM_BATCH` rows and run it. -/
def _check_code (dataset : List (Row α)) (model : FModel (List α))
    (predictAttr : Option (FModel (List α))) (losser : Losser α)
    (metrics : List (Metric α Rat)) (dev_data : Option (List (Row α))) :
    Except PyError (List Ev) :=
  match checkBatches model losser 0 (batchIter DEFAULT_CHECK_BATCH_SIZE dataset) with
  | .error e => .error e
  | .ok evs =>
      match dev_data with
      | none => .ok evs
      | some _ =>
          match Tester.init (dataset.take (DEFAULT_CHECK_BATCH_SIZE * DEFAULT_CHECK_NUM_BATCH))
              model predictAttr metrics DEFAULT_CHECK_BATCH_SIZE false (-1) with
          | .error e => .error e
          | .ok t =>
              match Tester.testT t with
              | .error e => .error e
              | .ok (_, tevs) => .ok (evs ++ tevs)

/-- `Trainer.__init__` (trainer.py lines 33-94).  The `isinstance` checks on
`train_data` and `model` (lines 39-42) hold by typing.  Then: the
metrics/dev_data consistency checks (lines 44-48, `not metrics` is Python
falsiness, i.e. an absent or empty metric list); `_prepare_metrics` and
`_prepare_losser`; `_check_code` when `check_code_level > -1`; the field
assignments; and the construction of `self.tester` when dev data is given.
Returns the constructed object and the events of the pre-flight check. -/
def Trainer.init (train_data : List (Row α)) (model : FModel (List α))
    (predictAttr : Option (FModel (List α))) (losser : Losser α)
    (metrics : List (Metric α Rat)) (n_epochs batch_size : Nat)
    (print_every validate_every : Int) (dev_data : Option (List (Row α)))
    (save_path : Option String) (check_code_level : Int)
    (eval_sort_key : Option String) (shuffle : Nat → List (Row α) → List (Row α)) :
    Except PyError (Trainer α × List Ev) :=
  if metrics.isEmpty ∧ dev_data.isSome then .error .valueErrorNoMetricForDev
  else if ¬metrics.isEmpty ∧ dev_data.isNone then .error .valueErrorNoDevForMetrics
  else
    match (if -1 < check_code_level then
             _check_code train_data model predictAttr (prepare_losser losser)
               (prepare_metrics metrics) dev_data
           else .ok []) with
    | .error e => .error e
    | .ok cevs =>
        match dev_data with
        | none =>
            .ok (⟨train_data, model, prepare_losser losser, n_epochs, batch_size,
                  print_every, validate_every, save_path, none, eval_sort_key,
                  shuffle⟩, cevs)
        | some dd =>
            match Tester.init dd model predictAttr (prepare_metrics metrics)
                batch_size false 0 with
            | .error e => .error e
            | .ok t =>
                .ok (⟨train_data, model, prepare_losser losser, n_epochs, batch_size,
                      print_every, validate_every, save_path, some t, eval_sort_key,
                      shuffle⟩, cevs)

/-! ## Library lemmas about the embedded containers -/

theorem chunkFuel_congr {ρ : Type} (bs : Nat) :
    ∀ (f₁ : Nat) (l : List ρ) (f₂ : Nat), l.length ≤ f₁ → l.length ≤ f₂ →
      chunkFuel bs f₁ l = chunkFuel bs f₂ l := by
  intro f₁
  induction f₁ with
  | zero =>
      intro l f₂ h₁ _
      have : l = [] := List.length_eq_zero.mp (Nat.le_zero.mp h₁)
      subst this
      cases f₂ <;> rfl
  | succ f ih =>
      intro l f₂ h₁ h₂
      cases l with
      | nil => cases f₂ <;> rfl
      | cons r rest =>
          cases f₂ with
          | zero => simp at h₂
          | succ f₃ =>
              simp only [chunkFuel]
              by_cases hbs : bs = 0
              · simp [hbs]
              · simp only [if_neg hbs]
                have hlen : ((r :: rest).drop bs).length ≤ f := by
                  simp only [List.length_drop, List.length_cons]
                  simp only [List.length_cons] at h₁
                  omega
                have hlen₂ : ((r :: rest).drop bs).length ≤ f₃ := by
                  simp only [List.length_drop, List.length_cons]
                  simp only [List.length_cons] at h₂
                  omega
                rw [ih _ f₃ hlen hlen₂]

theorem chunk_nil {ρ : Type} (bs : Nat) : chunk bs ([] : List ρ) = [] := rfl

theorem chunk_cons {ρ : Type} (bs : Nat) (r : ρ) (rest : List ρ) :
    chunk bs (r :: rest) =
      if bs = 0 then []
      else (r :: rest).take bs :: chunk bs ((r :: rest).drop bs) := by
  show chunkFuel bs (rest.length + 1) (r :: rest) = _
  simp only [chunkFuel]
  by_cases hbs : bs = 0
  · simp [hbs]
  · simp only [if_neg hbs]
    have hle : ((r :: rest).drop bs).length ≤ rest.length := by
      simp only [List.length_drop, List.length_cons]
      omega
    rw [chunkFuel_congr bs rest.length ((r :: rest).drop bs)
          ((r :: rest).drop bs).length hle (Nat.le_refl _)]
    rfl

theorem chunk_flatten {ρ : Type} (bs : Nat) (hbs : bs ≠ 0) :
    ∀ l : List ρ, (chunk bs l).flatten = l := by
  have main : ∀ (fuel : Nat) (l : List ρ), l.length ≤ fuel →
      (chunkFuel bs fuel l).flatten = l := by
    intro fuel
    induction fuel with
    | zero =>
        intro l h
        have : l = [] := List.length_eq_zero.mp (Nat.le_zero.mp h)
        subst this
        rfl
    | succ f ih =>
        intro l h
        cases l with
        | nil => rfl
        | cons r rest =>
            simp only [chunkFuel, if_neg hbs, List.flatten_cons]
            rw [ih ((r :: rest).drop bs) ?_, List.take_append_drop]
            simp only [List.length_drop, List.length_cons]
            simp only [List.length_cons] at h
            omega
  intro l
  exact main l.length l (Nat.le_refl _)

theorem chunk_mem_length_le {ρ : Type} (bs : Nat) (l : List ρ) :
    ∀ c ∈ chunk bs l, c.length ≤ bs := by
  have main : ∀ (fuel : Nat) (l : List ρ) (c : List ρ), c ∈ chunkFuel bs fuel l →
      c.length ≤ bs := by
    intro fuel
    induction fuel with
    | zero =>
        intro l c h
        cases l <;> simp [chunkFuel] at h
    | succ f ih =>
        intro l c h
        cases l with
        | nil => simp [chunkFuel] at h
        | cons r rest =>
            simp only [chunkFuel] at h
            by_cases hbs : bs = 0
            · simp [hbs] at h
            · rw [if_neg hbs] at h
              rcases List.mem_cons.mp h with rfl | hc
              · simp
              · exact ih _ c hc
  exact fun c hc => main l.length l c hc

theorem valuesOf_nil (k : String) : valuesOf k ([] : SMap V) = [] := rfl

theorem valuesOf_cons (k k₁ : String) (v : V) (d : SMap V) :
    valuesOf k ((k₁, v) :: d) =
      if k₁ = k then v :: valuesOf k d else valuesOf k d := by
  by_cases h : k₁ = k <;> simp [valuesOf, h]

theorem dget_nil (k : String) : dget k ([] : SMap (List V)) = [] := rfl

theorem dget_cons (k k₁ : String) (vs : List V) (m : SMap (List V)) :
    dget k ((k₁, vs) :: m) = if k₁ = k then vs else dget k m := by
  by_cases h : k₁ = k <;> simp [dget, alookup, List.find?_cons, h]

theorem dget_dappend (k k₁ : String) (v : V) (m : SMap (List V)) :
    dget k (dappend k₁ v m) =
      if k₁ = k then dget k m ++ [v] else dget k m := by
  induction m with
  | nil =>
      by_cases h : k₁ = k <;> simp [dappend, dget_cons, dget_nil, h]
  | cons kv rest ih =>
      obtain ⟨a, vs⟩ := kv
      by_cases h1 : a = k₁
      · subst h1
        by_cases h2 : a = k <;> simp [dappend, dget_cons, h2]
      · by_cases h2 : a = k
        · subst h2
          have hk : ¬k₁ = a := fun hh => h1 hh.symm
          simp [dappend, h1, dget_cons, hk]
        · simp [dappend, h1, dget_cons, h2, ih]

theorem dget_dinsertAll (k : String) (d : SMap V) (m : SMap (List V)) :
    dget k (dinsertAll d m) = dget k m ++ valuesOf k d := by
  induction d generalizing m with
  | nil => simp [dinsertAll, valuesOf_nil]
  | cons kv d ih =>
      obtain ⟨k₁, v⟩ := kv
      have step : dinsertAll ((k₁, v) :: d) m = dinsertAll d (dappend k₁ v m) := rfl
      rw [step, ih, dget_dappend, valuesOf_cons]
      by_cases h : k₁ = k <;> simp [h]

theorem dget_map_flatten (k : String) (m : SMap (List (List V))) :
    dget k (m.map (fun kv => (kv.1, kv.2.flatten))) = (dget k m).flatten := by
  induction m with
  | nil => simp [dget_nil]
  | cons kv rest ih =>
      obtain ⟨a, vs⟩ := kv
      by_cases h : a = k <;> simp [dget_cons, h, ih]

/-! ## Structure lemmas about `Tester.test` -/

theorem accumBatches_ok (m : FModel (List α)) :
    ∀ (bl : List (BatchPair α)) (acc acc₂ : SMap (List (List α)) × SMap (List (List α)))
      (evs : List Ev), accumBatches m bl acc = .ok (acc₂, evs) →
      (∀ k, dget k acc₂.1 =
              dget k acc.1 ++ (bl.map (fun b => valuesOf k (predFields m b.1))).flatten ∧
            dget k acc₂.2 =
              dget k acc.2 ++ (bl.map (fun b => valuesOf k b.2)).flatten) ∧
      evs.count Ev.moveToDevice = bl.length ∧
      (∀ e ∈ evs, e = Ev.moveToDevice ∨ e = Ev.forwardCall) := by
  intro bl
  induction bl with
  | nil =>
      intro acc acc₂ evs h
      simp only [accumBatches, Except.ok.injEq, Prod.mk.injEq] at h
      obtain ⟨h1, h2⟩ := h
      subst h1; subst h2
      simp
  | cons b rest ih =>
      intro acc acc₂ evs h
      cases hfd : Tester.dataForward m b.1 with
      | nondict => simp [accumBatches, hfd] at h
      | dict d =>
          cases hrec : accumBatches m rest (dinsertAll d acc.1, dinsertAll b.2 acc.2) with
          | error e => simp [accumBatches, hfd, hrec] at h
          | ok p =>
              obtain ⟨acc₃, evs₃⟩ := p
              simp only [accumBatches, hfd, hrec, Except.ok.injEq, Prod.mk.injEq] at h
              obtain ⟨h1, h2⟩ := h
              subst h1; subst h2
              obtain ⟨ihd, ihc, ihm⟩ := ih _ _ _ hrec
              have hpf : predFields m b.1 = d := by simp [predFields, hfd]
              refine ⟨?_, ?_, ?_⟩
              · intro k
                obtain ⟨ihd1, ihd2⟩ := ihd k
                constructor
                · rw [ihd1]
                  simp [dget_dinsertAll, hpf, List.append_assoc]
                · rw [ihd2]
                  simp [dget_dinsertAll, List.append_assoc]
              · simp [List.count_cons, ihc, Nat.add_comm]
              · intro e he
                simp only [List.cons_append, List.nil_append, List.mem_cons] at he
                rcases he with rfl | rfl | he
                · exact Or.inl rfl
                · exact Or.inr rfl
                · exact ihm e he

theorem alookup_cons (k a : String) (v : V) (m : SMap V) :
    alookup k ((a, v) :: m) = if a = k then some v else alookup k m := by
  by_cases h : a = k <;> simp [alookup, List.find?_cons, h]

theorem alookup_dictInsert_self (k : String) (v : V) (m : SMap V) :
    alookup k (dictInsert k v m) = some v := by
  induction m with
  | nil => simp [dictInsert, alookup_cons]
  | cons kv rest ih =>
      obtain ⟨a, vs⟩ := kv
      by_cases h : a = k
      · subst h
        simp [dictInsert, alookup_cons]
      · have hd : dictInsert k v ((a, vs) :: rest) = (a, vs) :: dictInsert k v rest := by
          simp [dictInsert, h]
        rw [hd, alookup_cons, if_neg h, ih]

theorem alookup_dictInsert_ne (k k₁ : String) (hne : k₁ ≠ k) (v : V) (m : SMap V) :
    alookup k (dictInsert k₁ v m) = alookup k m := by
  induction m with
  | nil => simp [dictInsert, alookup_cons, hne, alookup]
  | cons kv rest ih =>
      obtain ⟨a, vs⟩ := kv
      by_cases h : a = k₁
      · subst h
        simp [dictInsert, alookup_cons, hne]
      · have hd : dictInsert k₁ v ((a, vs) :: rest) = (a, vs) :: dictInsert k₁ v rest := by
          simp [dictInsert, h]
        rw [hd, alookup_cons, alookup_cons, ih]

theorem runMetrics_alookup_preserved (k : String) :
    ∀ (ms : List (Metric α γ)) (out tru : SMap (List α)) (er : SMap γ),
      (∀ m ∈ ms, m.className ≠ k) →
      alookup k (runMetrics ms out tru er) = alookup k er := by
  intro ms
  induction ms with
  | nil => intro out tru er _; rfl
  | cons m rest ih =>
      intro out tru er hne
      have h1 : m.className ≠ k := hne m (List.mem_cons_self m rest)
      have h2 : ∀ m₂ ∈ rest, m₂.className ≠ k :=
        fun m₂ hm => hne m₂ (List.mem_cons_of_mem m hm)
      simp only [runMetrics]
      rw [ih _ _ _ h2, alookup_dictInsert_ne k m.className h1]

/-- The train/eval mode of the model after replaying a trace, starting from
mode `m` (`model.train()` / `model.eval()` events win, last one standing). -/
inductive Mode where
  | train
  | eval
deriving DecidableEq, Repr

def replayMode : Mode → List Ev → Mode
  | m, [] => m
  | _, Ev.setModeEval :: rest => replayMode Mode.eval rest
  | _, Ev.setModeTrain :: rest => replayMode Mode.train rest
  | m, _ :: rest => replayMode m rest

/-- Scan a trace with the gradients-enabled flag (toggled by the
`torch.no_grad` context events): `true` iff every forward call in the trace
happens while gradients are disabled. -/
def forwardsNoGrad : Bool → List Ev → Bool
  | _, [] => true
  | _, Ev.noGradBegin :: rest => forwardsNoGrad false rest
  | _, Ev.noGradEnd :: rest => forwardsNoGrad true rest
  | g, Ev.forwardCall :: rest => !g && forwardsNoGrad g rest
  | g, _ :: rest => forwardsNoGrad g rest

theorem replayMode_append (l₁ l₂ : List Ev) :
    ∀ m, replayMode m (l₁ ++ l₂) = replayMode (replayMode m l₁) l₂ := by
  induction l₁ with
  | nil => intro m; rfl
  | cons e rest ih =>
      intro m
      cases e <;> simp [replayMode, ih]

theorem forwardsNoGrad_neutral :
    ∀ (l : List Ev), (∀ e ∈ l, e ≠ Ev.forwardCall ∧ e ≠ Ev.noGradBegin ∧ e ≠ Ev.noGradEnd) →
    ∀ (l₂ : List Ev) (g : Bool), forwardsNoGrad g (l ++ l₂) = forwardsNoGrad g l₂ := by
  intro l
  induction l with
  | nil => intro _ l₂ g; rfl
  | cons e rest ih =>
      intro h l₂ g
      have he := h e (List.mem_cons_self e rest)
      have hr : ∀ e₂ ∈ rest, e₂ ≠ Ev.forwardCall ∧ e₂ ≠ Ev.noGradBegin ∧ e₂ ≠ Ev.noGradEnd :=
        fun e₂ hm => h e₂ (List.mem_cons_of_mem e hm)
      have ihg := ih hr l₂ g
      clear ih h hr
      cases e <;> simp_all [forwardsNoGrad]

theorem forwardsNoGrad_disabled :
    ∀ (l : List Ev), (∀ e ∈ l, e = Ev.moveToDevice ∨ e = Ev.forwardCall) →
    ∀ (l₂ : List Ev), forwardsNoGrad false (l ++ l₂) = forwardsNoGrad false l₂ := by
  intro l
  induction l with
  | nil => intro _ l₂; rfl
  | cons e rest ih =>
      intro h l₂
      have he := h e (List.mem_cons_self e rest)
      have hr : ∀ e₂ ∈ rest, e₂ = Ev.moveToDevice ∨ e₂ = Ev.forwardCall :=
        fun e₂ hm => h e₂ (List.mem_cons_of_mem e hm)
      rcases he with rfl | rfl <;> simp [forwardsNoGrad, ih hr]

theorem testT_ok_elim (t : Tester α γ) (res : SMap γ) (evs : List Ev)
    (h : Tester.testT t = .ok (res, evs)) :
    ∃ out tru bevs,
      accumBatches t.predict_func (batchIter t.batch_size t.data) ([], []) =
        .ok ((out, tru), bevs) ∧
      res = runMetrics t.metrics (out.map (fun kv => (kv.1, kv.2.flatten)))
              (tru.map (fun kv => (kv.1, kv.2.flatten))) [] ∧
      evs = [Ev.setModeEval, Ev.noGradBegin] ++ bevs ++ [Ev.noGradEnd] ++
            t.metrics.map (fun m => Ev.metricCall m.className) ++
            (if t.verbose ≥ 0 then [Ev.printLog] else []) ++ [Ev.setModeTrain] := by
  cases hacc : accumBatches t.predict_func (batchIter t.batch_size t.data) ([], []) with
  | error e => simp [Tester.testT, hacc] at h
  | ok p =>
      obtain ⟨⟨out, tru⟩, bevs⟩ := p
      refine ⟨out, tru, bevs, rfl, ?_, ?_⟩ <;>
        · simp only [Tester.testT, hacc, Except.ok.injEq, Prod.mk.injEq] at h
          obtain ⟨h1, h2⟩ := h
          simp [h1.symm, h2.symm]

theorem testT_evs_tester (t : Tester α γ) (res : SMap γ) (evs : List Ev)
    (h : Tester.testT t = .ok (res, evs)) :
    ∀ e ∈ evs, e.isTesterEv = true := by
  obtain ⟨out, tru, bevs, hacc, _, hevs⟩ := testT_ok_elim t res evs h
  obtain ⟨_, _, hmem⟩ := accumBatches_ok t.predict_func _ _ _ _ hacc
  intro e he
  rw [hevs] at he
  simp only [List.append_assoc] at he
  rcases List.mem_append.mp he with h1 | he
  · simp only [List.mem_cons, List.mem_singleton, List.not_mem_nil, or_false] at h1
    rcases h1 with rfl | rfl <;> rfl
  rcases List.mem_append.mp he with h1 | he
  · rcases hmem e h1 with rfl | rfl <;> rfl
  rcases List.mem_append.mp he with h1 | he
  · simp only [List.mem_singleton] at h1
    rw [h1]; rfl
  rcases List.mem_append.mp he with h1 | he
  · simp only [List.mem_map] at h1
    obtain ⟨m, _, rfl⟩ := h1
    rfl
  rcases List.mem_append.mp he with h1 | he
  · split at h1 <;> simp at h1
    rw [h1]; rfl
  · simp only [List.mem_singleton] at he
    rw [he]; rfl

theorem do_validation_evs (tr : Trainer α) (st st₂ : TrState) (evs : List Ev)
    (h : Trainer.do_validation tr st = .ok (st₂, evs)) :
    ∀ e ∈ evs, e.isValidationEv = true := by
  cases htst : tr.tester with
  | none => simp [Trainer.do_validation, htst] at h
  | some t =>
      cases htt : Tester.testT t with
      | error e => simp [Trainer.do_validation, htst, htt] at h
      | ok p =>
          obtain ⟨res, tevs⟩ := p
          cases hvu : Trainer.validation_update tr.save_path tr.eval_sort_key
              st.best_accuracy res with
          | error e => simp [Trainer.do_validation, htst, htt, hvu] at h
          | ok q =>
              obtain ⟨best₂, saved⟩ := q
              simp only [Trainer.do_validation, htst, htt, hvu, Except.ok.injEq,
                Prod.mk.injEq] at h
              obtain ⟨_, h2⟩ := h
              intro e he
              rw [← h2] at he
              simp only [List.append_assoc] at he
              rcases List.mem_append.mp he with h1 | he
              · have := testT_evs_tester t res tevs htt e h1
                simp [Ev.isValidationEv, this]
              rcases List.mem_append.mp he with h1 | he
              · simp only [List.mem_map] at h1
                obtain ⟨_, _, rfl⟩ := h1
                rfl
              · split at he <;> simp at he
                rw [he]; rfl

/-! ## Shared concrete objects used by the evaluation witnesses -/

/-- A concrete dataset row: input field "a", target field "b". -/
def rowW : Row Nat := ⟨[("a", 1)], [("b", 2)]⟩

/-- A concrete model: declares the single parameter "a" and returns a dict
binding "p" to a constant tensor. -/
def mW : FModel (List Nat) := ⟨["a"], fun _ => PyRet.dict [("p", [7])]⟩

/-- A concrete scalar-loss callable. -/
def losserW : Losser Nat := fun _ _ => .ok (.tensor [] 1)

/-- A concrete tester with no data and no metrics. -/
def tW10 : Tester Nat Rat := ⟨[], mW, [], 1, 0⟩

/-- `Tester.__init__` can never complete (claim C3 helper): every run of its
attribute accesses fails on the read of the unassigned `self._model`. -/
theorem tester_init_raises {α γ : Type} (data : List (Row α)) (model : FModel (List α))
    (predictAttr : Option (FModel (List α))) (metrics : List (Metric α γ))
    (batch_size : Nat) (use_cuda : Bool) (verbose : Int) :
    Tester.init data model predictAttr metrics batch_size use_cuda verbose =
      .error (.attributeError "_model") := by
  have hrun : ∀ hp ca : Bool,
      runInit (testerInitAccesses hp ca) [] = .error (.attributeError "_model") := by
    intro hp ca
    cases hp <;> cases ca <;> rfl
  simp [Tester.init, hrun]

/-! ## The claims -/

/-- Claim C1: `Trainer.data_forward` and `Tester._data_forward` invoke the
model's forward function only with the subset of the batch's named values
whose names the forward function declares as parameters: the argument dict
both build is exactly the batch filtered to declared names, and the call is
made on that filtered dict (in the trainer with the additional dict-result
check). -/
theorem claim1_forward_signature_filtering {V : Type} (m : FModel V) (x : SMap V) :
    (∀ kv : String × V, kv ∈ build_args m.params x ↔ kv ∈ x ∧ kv.1 ∈ m.params) ∧
    Tester.dataForward m x = m.func (build_args m.params x) ∧
    (∀ d, m.func (build_args m.params x) = .dict d → Trainer.data_forward m x = .ok d) ∧
    (m.func (build_args m.params x) = .nondict →
      Trainer.data_forward m x = .error .typeErrorForwardNotDict) := by
  refine ⟨?_, rfl, ?_, ?_⟩
  · intro kv
    simp [build_args, List.mem_filter, List.contains]
  · intro d hd
    simp [Trainer.data_forward, hd]
  · intro hd
    simp [Trainer.data_forward, hd]

/-- Claim C1, witness: concrete filtering and a concrete trainer forward. -/
theorem claim1_witness :
    (("a", [1]) ∈ build_args mW.params [("a", [1]), ("b", [2])] ↔
      (("a", [1]) ∈ [("a", ([1] : List Nat)), ("b", [2])] ∧ "a" ∈ mW.params)) ∧
    Trainer.data_forward mW [("a", [1]), ("b", [2])] = .ok [("p", [7])] :=
  ⟨(claim1_forward_signature_filtering mW [("a", [1]), ("b", [2])]).1 ("a", [1]),
   (claim1_forward_signature_filtering mW [("a", [1]), ("b", [2])]).2.2.1 _ rfl⟩

/-- Claim C3: for every combination of valid constructor arguments,
`Tester.__init__` raises `AttributeError`: `hasattr(self._model, ...)` on
line 31 evaluates `self._model` before any assignment to it (only
`self.metrics` has been assigned; `self.use_cuda` on line 41 is likewise
read before its assignment on line 45), so no `Tester` object can ever be
constructed — under either branch of the environment flags. -/
theorem claim3_tester_init_always_raises :
    (∀ hasPredict cudaAvail : Bool,
      runInit (testerInitAccesses hasPredict cudaAvail) [] =
        .error (.attributeError "_model")) ∧
    ∀ (data : List (Row Nat)) (model : FModel (List Nat))
      (predictAttr : Option (FModel (List Nat))) (metrics : List (Metric Nat Rat))
      (batch_size : Nat) (use_cuda : Bool) (verbose : Int),
      Tester.init data model predictAttr metrics batch_size use_cuda verbose =
        .error (.attributeError "_model") :=
  ⟨by intro hp ca; cases hp <;> cases ca <;> rfl,
   fun data model predictAttr metrics bs uc vb =>
    tester_init_raises data model predictAttr metrics bs uc vb⟩

/-- Claim C10: every `Tester.test` call that returns normally leaves the
model in training mode: the trace starts by switching to eval mode, every
forward call in it happens with gradients disabled, and the mode after
replaying the whole trace is `train` no matter the starting mode. -/
theorem claim10_test_restores_train_mode (t : Tester α γ) (res : SMap γ)
    (evs : List Ev) (h : Tester.testT t = .ok (res, evs)) :
    evs.head? = some Ev.setModeEval ∧
    (∀ m₀ : Mode, replayMode m₀ evs = Mode.train) ∧
    forwardsNoGrad true evs = true := by
  obtain ⟨out, tru, bevs, hacc, _, hevs⟩ := testT_ok_elim t res evs h
  obtain ⟨_, _, hmem⟩ := accumBatches_ok t.predict_func _ _ _ _ hacc
  refine ⟨?_, ?_, ?_⟩
  · rw [hevs]; rfl
  · intro m₀
    rw [hevs, replayMode_append]
    rfl
  · rw [hevs]
    simp only [List.append_assoc, List.cons_append, List.nil_append]
    simp only [forwardsNoGrad]
    rw [forwardsNoGrad_disabled bevs hmem]
    simp only [forwardsNoGrad]
    rw [forwardsNoGrad_neutral (t.metrics.map (fun m => Ev.metricCall m.className))
      (by rintro e he
          simp only [List.mem_map] at he
          obtain ⟨m, _, rfl⟩ := he
          exact ⟨by simp, by simp, by simp⟩)]
    rw [forwardsNoGrad_neutral (if t.verbose ≥ 0 then [Ev.printLog] else [])
      (by intro e he
          split at he <;> simp at he
          subst he
          exact ⟨by simp, by simp, by simp⟩)]
    rfl

/-- Claim C10, witness: a concrete tester run that returns normally. -/
theorem claim10_witness :
    Tester.testT tW10 =
      .ok ([], [Ev.setModeEval, Ev.noGradBegin, Ev.noGradEnd, Ev.printLog,
                Ev.setModeTrain]) ∧
    replayMode Mode.eval [Ev.setModeEval, Ev.noGradBegin, Ev.noGradEnd, Ev.printLog,
      Ev.setModeTrain] = Mode.train :=
  ⟨rfl, (claim10_test_restores_train_mode tW10 _ _ rfl).2.1 Mode.eval⟩

/-- A metric scoring the number of values it can draw for prediction field
"p", consuming its inputs (as a metric computed over the pass does). -/
def metricM1 : Metric Nat Nat :=
  ⟨"M1", fun o t => ((dget "p" o).length,
    (o.map (fun kv => (kv.1, [])), t.map (fun kv => (kv.1, []))))⟩

/-- The same scoring function under a second metric class name. -/
def metricM2 : Metric Nat Nat :=
  ⟨"M2", fun o t => ((dget "p" o).length,
    (o.map (fun kv => (kv.1, [])), t.map (fun kv => (kv.1, []))))⟩

/-- A concrete tester with one row and the two counting metrics. -/
def tC2 : Tester Nat Nat := ⟨[rowW], mW, [metricM1, metricM2], 1, -1⟩

/-- Claim C2 as stated is false at a concrete input: `Tester.test` hands
every metric the same single-use `itertools.chain` iterables, so the second
metric is not applied to the accumulated predictions and truths of the
entire pass.  Here the pass accumulates prediction field "p" to `[7]` and
truth field "b" to `[2]`; the second metric's result on that accumulation
would be `1`, but the returned mapping carries `0` for it — the first
metric exhausted the shared iterators. -/
theorem claim2_counterexample :
    Tester.test tC2 = .ok [("M1", 1), ("M2", 0)] ∧
    (metricM2.f [("p", [7])] [("b", [2])]).1 = 1 ∧
    (0 : Nat) ≠ 1 :=
  ⟨rfl, rfl, by decide⟩

/-- Claim C2, amended: for every dataset and list of metrics, a normally
returning `Tester.test` makes exactly one sequential pass over the dataset
(the batches partition the data in order; one device move per batch),
invokes each metric exactly once in order, accumulates per-field
predictions and per-field ground truths across all batches — but the
accumulated values are handed to the metric loop as shared single-use
iterators, so each metric sees only what its predecessors left unconsumed;
the first metric (when class names are distinct) is scored on the entire
pass's accumulation, and the result maps metric class names to the scores
so obtained. -/
theorem claim2_amended (t : Tester α γ) (res : SMap γ) (evs : List Ev)
    (hbs : t.batch_size ≠ 0) (h : Tester.testT t = .ok (res, evs)) :
    (chunk t.batch_size t.data).flatten = t.data ∧
    evs.count Ev.moveToDevice = (chunk t.batch_size t.data).length ∧
    evs.filterMap evMetricName = t.metrics.map (fun m => m.className) ∧
    ∃ outF truF : SMap (List α),
      (∀ k,
        dget k outF =
          ((batchIter t.batch_size t.data).map
            (fun b => valuesOf k (predFields t.predict_func b.1))).flatten.flatten ∧
        dget k truF =
          ((batchIter t.batch_size t.data).map
            (fun b => valuesOf k b.2)).flatten.flatten) ∧
      res = runMetrics t.metrics outF truF [] ∧
      (∀ m₀ ms, t.metrics = m₀ :: ms →
        (∀ m₂ ∈ ms, m₂.className ≠ m₀.className) →
        alookup m₀.className res = some (m₀.f outF truF).1) := by
  obtain ⟨out, tru, bevs, hacc, hres, hevs⟩ := testT_ok_elim t res evs h
  obtain ⟨hdget, hcount, hmem⟩ := accumBatches_ok t.predict_func _ _ _ _ hacc
  refine ⟨chunk_flatten t.batch_size hbs t.data, ?_, ?_,
    out.map (fun kv => (kv.1, kv.2.flatten)), tru.map (fun kv => (kv.1, kv.2.flatten)),
    ?_, hres, ?_⟩
  · rw [hevs]
    have h1 : (t.metrics.map (fun m => Ev.metricCall m.className)).count Ev.moveToDevice = 0 := by
      rw [List.count_eq_zero]
      simp
    have h2 : (if t.verbose ≥ 0 then [Ev.printLog] else []).count Ev.moveToDevice = 0 := by
      split <;> rfl
    simp [List.count_append, List.count_cons, hcount, h1, h2, batchIter]
  · rw [hevs]
    have h1 : bevs.filterMap evMetricName = [] := by
      rw [List.filterMap_eq_nil_iff]
      intro e he
      rcases hmem e he with rfl | rfl <;> rfl
    have h2 : (if t.verbose ≥ 0 then [Ev.printLog] else []).filterMap evMetricName = [] := by
      split <;> rfl
    simp only [List.append_assoc, List.cons_append, List.nil_append, List.filterMap_append,
      List.filterMap_cons, List.filterMap_nil, List.filterMap_map, h1, h2, evMetricName]
    rw [show (evMetricName ∘ fun m : Metric α γ => Ev.metricCall m.className) =
          (some ∘ fun m : Metric α γ => m.className) from rfl,
        List.filterMap_eq_map]
    simp [evMetricName]
  · intro k
    obtain ⟨ho, ht⟩ := hdget k
    refine ⟨?_, ?_⟩
    · rw [dget_map_flatten, ho]
      simp [dget_nil]
    · rw [dget_map_flatten, ht]
      simp [dget_nil]
  · intro m₀ ms hms hne
    rw [hres, hms]
    simp only [runMetrics]
    rw [runMetrics_alookup_preserved m₀.className ms _ _ _ hne]
    exact alookup_dictInsert_self _ _ _

/-- Claim C2, witness: the amended theorem applied at the concrete tester:
its single batch partitions the dataset. -/
theorem claim2_witness :
    (chunk tC2.batch_size tC2.data).flatten = tC2.data :=
  (claim2_amended tC2 [("M1", 1), ("M2", 0)]
    [Ev.setModeEval, Ev.noGradBegin, Ev.moveToDevice, Ev.forwardCall, Ev.noGradEnd,
     Ev.metricCall "M1", Ev.metricCall "M2", Ev.setModeTrain]
    (by decide) rfl).1

/-- The expected evolution of `_best_accuracy` over a sequence of extracted
validation scores when checkpointing is enabled: the final best and, per
score, whether it strictly improved the running best (the save decision). -/
def foldBest : Rat → List Rat → Rat × List Bool
  | b, [] => (b, [])
  | b, s :: rest =>
      let b₂ := if b < s then s else b
      let r := foldBest b₂ rest
      (r.1, decide (b < s) :: r.2)

theorem if_lt_eq_max (b s : Rat) : (if b < s then s else b) = max b s := by
  rcases lt_or_ge b s with h | h
  · rw [if_pos h, max_eq_right h.le]
  · rw [if_neg (not_lt.mpr h), max_eq_left h]

theorem foldBest_fst : ∀ (l : List Rat) (b : Rat), (foldBest b l).1 = l.foldl max b := by
  intro l
  induction l with
  | nil => intro b; rfl
  | cons s rest ih =>
      intro b
      simp only [foldBest, List.foldl_cons, if_lt_eq_max, ih]

theorem le_foldl_max : ∀ (l : List Rat) (b : Rat), b ≤ l.foldl max b := by
  intro l
  induction l with
  | nil => intro b; exact le_refl b
  | cons s rest ih =>
      intro b
      exact le_trans (le_max_left b s) (ih (max b s))

theorem foldl_max_take_mono (l : List Rat) (j k : Nat) (hjk : j ≤ k) :
    (l.take j).foldl max 0 ≤ (l.take k).foldl max 0 := by
  have hsplit : l.take j ++ (l.take k).drop j = l.take k := by
    have h1 : (l.take k).take j = l.take j := by
      rw [List.take_take, Nat.min_eq_left hjk]
    conv_rhs => rw [← List.take_append_drop j (l.take k)]
    rw [h1]
  calc (l.take j).foldl max 0
      ≤ ((l.take k).drop j).foldl max ((l.take j).foldl max 0) :=
        le_foldl_max _ _
    _ = (l.take j ++ (l.take k).drop j).foldl max 0 := (List.foldl_append ..).symm
    _ = (l.take k).foldl max 0 := by rw [hsplit]

theorem foldBest_snd : ∀ (l : List Rat) (b : Rat),
    (foldBest b l).2 =
      (List.range l.length).map
        (fun i => decide ((l.take i).foldl max b < l.getD i 0)) := by
  intro l
  induction l with
  | nil => intro b; rfl
  | cons s rest ih =>
      intro b
      show decide (b < s) :: (foldBest (if b < s then s else b) rest).2 = _
      rw [if_lt_eq_max, ih (max b s), List.length_cons, List.range_succ_eq_map,
        List.map_cons, List.map_map]
      rfl

/-- What `Trainer.do_validation`'s save decision does across a sequence of
validations whose extracted scores are known: with a save path the state
follows `foldBest`; without one `best_eval_result` is short-circuited away
and nothing changes. -/
theorem runValidations_spec (sp sk : Option String) :
    ∀ (rs : List (SMap Rat)) (scores : List Rat) (b : Rat),
      rs.map (Trainer.extractScore sk) = scores.map Except.ok →
      Trainer.runValidations sp sk b rs =
        .ok (if sp.isSome then (foldBest b scores).1 else b,
             if sp.isSome then (foldBest b scores).2 else scores.map (fun _ => false)) := by
  intro rs
  induction rs with
  | nil =>
      intro scores b hext
      cases scores with
      | nil => cases sp <;> rfl
      | cons s srest => simp at hext
  | cons r rest ih =>
      intro scores b hext
      cases scores with
      | nil => simp at hext
      | cons s srest =>
          simp only [List.map_cons, List.cons.injEq] at hext
          obtain ⟨hex, hrest⟩ := hext
          cases sp with
          | none =>
              simp only [Trainer.runValidations, Trainer.validation_update]
              rw [ih srest b hrest]
              simp [foldBest]
          | some path =>
              by_cases hlt : b < s
              · have hvu : Trainer.validation_update (some path) sk b r = .ok (s, true) := by
                  simp [Trainer.validation_update, Trainer.best_eval_result, hex, hlt]
                simp only [Trainer.runValidations, hvu]
                rw [ih srest s hrest]
                simp [foldBest, hlt]
              · have hvu : Trainer.validation_update (some path) sk b r = .ok (b, false) := by
                  simp [Trainer.validation_update, Trainer.best_eval_result, hex, hlt]
                simp only [Trainer.runValidations, hvu]
                rw [ih srest b hrest]
                simp [foldBest, hlt]

/-- Claim C7 as stated is false at a concrete input: with `save_path = None`
the `and` in `do_validation` short-circuits, `best_eval_result` is never
invoked, and `_best_accuracy` stays `0` instead of the claimed maximum of
`0` and the validation scores seen so far (here one validation whose
extracted score is `1`). -/
theorem claim7_counterexample :
    Trainer.runValidations none none 0 [[("acc", 1)]] = .ok (0, [false]) ∧
    Trainer.extractScore none [("acc", 1)] = .ok 1 ∧
    (0 : Rat) ≠ max 0 1 :=
  ⟨rfl, rfl, by norm_num⟩

/-- Claim C7, amended: when `save_path` is not `None`, across every sequence
of validations `_best_accuracy` never decreases and always equals the
maximum of its initial value `0` and all extracted validation scores seen
so far, and a checkpoint is saved after a validation exactly when the new
score strictly exceeds the previous best; when `save_path` is `None`,
`best_eval_result` is never invoked, `_best_accuracy` stays `0` and no
checkpoint is ever saved. -/
theorem claim7_amended (sp sk : Option String) (rs : List (SMap Rat)) (scores : List Rat)
    (hext : rs.map (Trainer.extractScore sk) = scores.map Except.ok) :
    Trainer.runValidations sp sk 0 rs =
      .ok (if sp.isSome then (foldBest 0 scores).1 else 0,
           if sp.isSome then (foldBest 0 scores).2 else scores.map (fun _ => false)) ∧
    (foldBest 0 scores).1 = scores.foldl max 0 ∧
    (∀ j k : Nat, j ≤ k →
      (scores.take j).foldl max 0 ≤ (scores.take k).foldl max 0) ∧
    (foldBest 0 scores).2 =
      (List.range scores.length).map
        (fun i => decide ((scores.take i).foldl max 0 < scores.getD i 0)) :=
  ⟨runValidations_spec sp sk rs scores 0 hext,
   foldBest_fst scores 0,
   fun j k hjk => foldl_max_take_mono scores j k hjk,
   foldBest_snd scores 0⟩

/-- Claim C7, witness: the amended theorem at a concrete validation
sequence with checkpointing enabled. -/
theorem claim7_witness :
    Trainer.runValidations (some "save") none 0 [[("a", 2)], [("a", 1)], [("a", 3)]] =
      .ok (3, [true, false, true]) := by
  have h := (claim7_amended (some "save") none [[("a", 2)], [("a", 1)], [("a", 3)]]
    [2, 1, 3] rfl).1
  norm_num [foldBest] at h
  exact h

/-- A concrete trainer (no dev data, no mid-epoch validation or printing,
identity row order) used by the witnesses. -/
def trW : Trainer Nat := ⟨[rowW], mW, losserW, 1, 1, -1, -1, none, none, none, fun _ l => l⟩

/-- Claim C4: on every batch processed during training, `_train_epoch`
performs, in this order: device move, forward pass, loss computation,
zero-gradients plus backward, then the optimizer update — and exactly one
optimizer update happens for the batch (whatever logging, printing or
mid-epoch validation follows performs none). -/
theorem claim4_batch_step_order (tr : Trainer α) (st st₂ : TrState)
    (b : BatchPair α) (evs : List Ev)
    (h : Trainer.processBatch tr st b = .ok (st₂, evs)) :
    (∃ tail, evs = [Ev.moveToDevice, Ev.forwardCall, Ev.lossCall, Ev.zeroGrad,
        Ev.backward, Ev.optStep] ++ tail ∧ tail.count Ev.optStep = 0) ∧
    evs.count Ev.optStep = 1 := by
  cases hdf : Trainer.data_forward tr.model b.1 with
  | error e => simp [Trainer.processBatch, hdf] at h
  | ok pred =>
  cases hls : tr.losser pred b.2 with
  | error e => simp [Trainer.processBatch, hdf, hls] at h
  | ok loss =>
  cases hbw : lossBackward loss with
  | error e => simp [Trainer.processBatch, hdf, hls, hbw] at h
  | ok u =>
  simp only [Trainer.processBatch, hdf, hls, hbw] at h
  have hprint : ∀ (c : Prop) (inst : Decidable c),
      (if c then [Ev.printLog] else []).count Ev.optStep = 0 := by
    intro c inst
    split <;> rfl
  split at h
  · cases hdv : Trainer.do_validation tr st with
    | error e => rw [hdv] at h; simp at h
    | ok q =>
        obtain ⟨st₃, vevs⟩ := q
        rw [hdv] at h
        simp only [Except.ok.injEq, Prod.mk.injEq] at h
        obtain ⟨_, hevs⟩ := h
        have hv0 : vevs.count Ev.optStep = 0 := by
          rw [List.count_eq_zero]
          intro hmem
          have := do_validation_evs tr st st₃ vevs hdv Ev.optStep hmem
          simp [Ev.isValidationEv, Ev.isTesterEv] at this
        constructor
        · refine ⟨[Ev.logScalar] ++
            (if 0 < tr.print_every ∧ (st.step : Int) % tr.print_every = 0
             then [Ev.printLog] else []) ++ [Ev.midValidate st.step] ++ vevs, ?_, ?_⟩
          · rw [← hevs]
            simp [List.append_assoc]
          · simp [List.count_append, List.count_cons, hprint, hv0]
        · rw [← hevs]
          simp [List.count_append, List.count_cons, hprint, hv0]
  · simp only [Except.ok.injEq, Prod.mk.injEq] at h
    obtain ⟨_, hevs⟩ := h
    constructor
    · refine ⟨[Ev.logScalar] ++
        (if 0 < tr.print_every ∧ (st.step : Int) % tr.print_every = 0
         then [Ev.printLog] else []), ?_, ?_⟩
      · rw [← hevs]
        simp [List.append_assoc]
      · simp [List.count_append, List.count_cons, hprint]
    · rw [← hevs]
      simp [List.count_append, List.count_cons, hprint]

/-- Claim C4, witness: a concrete successful batch step. -/
theorem claim4_witness :
    Trainer.processBatch trW ⟨0, 0⟩ (collate [rowW]) =
      .ok (⟨1, 0⟩, [Ev.moveToDevice, Ev.forwardCall, Ev.lossCall, Ev.zeroGrad,
        Ev.backward, Ev.optStep, Ev.logScalar]) ∧
    [Ev.moveToDevice, Ev.forwardCall, Ev.lossCall, Ev.zeroGrad, Ev.backward,
      Ev.optStep, Ev.logScalar].count Ev.optStep = 1 :=
  ⟨rfl, (claim4_batch_step_order trW ⟨0, 0⟩ ⟨1, 0⟩ (collate [rowW]) _ rfl).2⟩

theorem check_forward_error_err (params : List String) (bx : SMap V) (e : PyError)
    (h : check_forward_error params bx = .error e) : e = .checkError := by
  simp only [check_forward_error] at h
  split at h
  · simp at h
  · exact (Except.error.inj h).symm

theorem lossBackward_err (l : LossVal) (e : PyError) (h : lossBackward l = .error e) :
    e = .attributeError "backward" ∨ e = .runtimeErrorBackwardNonScalar := by
  cases l with
  | nontensor => exact Or.inl (Except.error.inj h).symm
  | tensor size v =>
      simp only [lossBackward] at h
      split at h
      · simp at h
      · exact Or.inr (Except.error.inj h).symm

/-- The exceptions the pre-flight batch loop can raise. -/
def isCheckLoopError : PyError → Bool
  | .checkError => true
  | .typeErrorForwardNotDict => true
  | .typeErrorLossNotTensor => true
  | .valueErrorLossNotScalar => true
  | .attributeError "backward" => true
  | .runtimeErrorBackwardNonScalar => true
  | _ => false

theorem checkBatches_error_class (model : FModel (List α)) (losser : Losser α) :
    ∀ (bl : List (BatchPair α)) (bc : Nat) (e : PyError),
      checkBatches model losser bc bl = .error e → isCheckLoopError e = true := by
  intro bl
  induction bl with
  | nil => intro bc e h; simp [checkBatches] at h
  | cons b rest ih =>
      intro bc e h
      simp only [checkBatches] at h
      by_cases hbc : bc = 0
      · subst hbc
        simp only [reduceIte] at h
        cases hcf : check_forward_error model.params b.1 with
        | error e₁ =>
            rw [hcf] at h
            simp only at h
            rw [← Except.error.inj h, check_forward_error_err model.params b.1 e₁ hcf]
            rfl
        | ok u =>
            rw [hcf] at h
            simp only at h
            cases hf : model.func (build_args model.params b.1) with
            | nondict =>
                rw [hf] at h
                simp only at h
                rw [← Except.error.inj h]
                rfl
            | dict out =>
                rw [hf] at h
                simp only at h
                cases hl : losser out b.2 with
                | error e₂ =>
                    rw [hl] at h
                    simp only at h
                    rw [← Except.error.inj h]
                    rfl
                | ok loss =>
                    rw [hl] at h
                    simp only at h
                    cases loss with
                    | nontensor =>
                        simp only at h
                        rw [← Except.error.inj h]
                        rfl
                    | tensor size v =>
                        by_cases hsz : size = []
                        · simp only [hsz, reduceIte, lossBackward] at h
                          split at h
                          · simp at h
                          · cases hrec : checkBatches model losser (0 + 1) rest with
                            | error e₃ =>
                                rw [hrec] at h
                                simp only at h
                                rw [← Except.error.inj h]
                                exact ih (0 + 1) e₃ hrec
                            | ok evs₂ =>
                                rw [hrec] at h
                                simp at h
                        · simp only [hsz, reduceIte] at h
                          rw [← Except.error.inj h]
                          rfl
      · simp only [if_neg hbc] at h
        cases hf : model.func (build_args model.params b.1) with
        | nondict =>
            rw [hf] at h
            simp only at h
            rw [← Except.error.inj h]
            rfl
        | dict out =>
            rw [hf] at h
            simp only at h
            cases hl : losser out b.2 with
            | error e₂ =>
                rw [hl] at h
                simp only at h
                rw [← Except.error.inj h]
                rfl
            | ok loss =>
                rw [hl] at h
                simp only at h
                cases hlb : lossBackward loss with
                | error e₂ =>
                    rw [hlb] at h
                    simp only at h
                    rw [← Except.error.inj h]
                    rcases lossBackward_err loss e₂ hlb with rfl | rfl <;> rfl
                | ok u =>
                    rw [hlb] at h
                    simp only at h
                    have hle : DEFAULT_CHECK_NUM_BATCH ≤ bc + 1 := by
                      simp only [DEFAULT_CHECK_NUM_BATCH]
                      omega
                    rw [if_pos hle] at h
                    simp at h

theorem check_code_error_class (dataset : List (Row α)) (model : FModel (List α))
    (predictAttr : Option (FModel (List α))) (losser : Losser α)
    (metrics : List (Metric α Rat)) (dev_data : Option (List (Row α))) (e : PyError)
    (h : _check_code dataset model predictAttr losser metrics dev_data = .error e) :
    isCheckLoopError e = true ∨ e = .attributeError "_model" := by
  simp only [_check_code] at h
  cases hcb : checkBatches model losser 0 (batchIter DEFAULT_CHECK_BATCH_SIZE dataset) with
  | error e₁ =>
      rw [hcb] at h
      simp only at h
      rw [← Except.error.inj h]
      exact Or.inl (checkBatches_error_class model losser _ 0 e₁ hcb)
  | ok evs =>
      rw [hcb] at h
      simp only at h
      cases dev_data with
      | none => simp at h
      | some dd =>
          rw [tester_init_raises
            (dataset.take (DEFAULT_CHECK_BATCH_SIZE * DEFAULT_CHECK_NUM_BATCH))
            model predictAttr metrics DEFAULT_CHECK_BATCH_SIZE false (-1)] at h
          simp only at h
          exact Or.inr (Except.error.inj h).symm

theorem checkBatches_ok_struct (model : FModel (List α)) (losser : Losser α) :
    ∀ (bl : List (BatchPair α)) (bc : Nat) (evs : List Ev),
      checkBatches model losser bc bl = .ok evs →
      (∀ e ∈ evs, e = Ev.moveToDevice ∨ e = Ev.forwardCall ∨ e = Ev.lossCall ∨
        e = Ev.backward ∨ e = Ev.zeroGrad) ∧
      evs.count Ev.moveToDevice ≤ (if bc = 0 then DEFAULT_CHECK_NUM_BATCH else 1) := by
  intro bl
  induction bl with
  | nil =>
      intro bc evs h
      simp only [checkBatches, Except.ok.injEq] at h
      subst h
      exact ⟨by simp, by simp⟩
  | cons b rest ih =>
      intro bc evs h
      simp only [checkBatches] at h
      by_cases hbc : bc = 0
      · subst hbc
        simp only [reduceIte] at h
        cases hcf : check_forward_error model.params b.1 with
        | error e₁ => rw [hcf] at h; simp at h
        | ok u =>
            rw [hcf] at h
            simp only at h
            cases hf : model.func (build_args model.params b.1) with
            | nondict => rw [hf] at h; simp at h
            | dict out =>
                rw [hf] at h
                simp only at h
                cases hl : losser out b.2 with
                | error e₂ => rw [hl] at h; simp at h
                | ok loss =>
                    rw [hl] at h
                    simp only at h
                    cases loss with
                    | nontensor => simp at h
                    | tensor size v =>
                        by_cases hsz : size = []
                        · simp only [hsz, reduceIte, lossBackward] at h
                          split at h
                          · simp only [Except.ok.injEq] at h
                            subst h
                            refine ⟨?_, by simp [DEFAULT_CHECK_NUM_BATCH]⟩
                            intro e he
                            simp only [List.mem_cons, List.not_mem_nil, or_false] at he
                            rcases he with rfl | rfl | rfl | rfl | rfl
                            · exact Or.inl rfl
                            · exact Or.inr (Or.inl rfl)
                            · exact Or.inr (Or.inr (Or.inl rfl))
                            · exact Or.inr (Or.inr (Or.inr (Or.inl rfl)))
                            · exact Or.inr (Or.inr (Or.inr (Or.inr rfl)))
                          · cases hrec : checkBatches model losser (0 + 1) rest with
                            | error e₃ => rw [hrec] at h; simp at h
                            | ok evs₂ =>
                                rw [hrec] at h
                                simp only [Except.ok.injEq] at h
                                subst h
                                obtain ⟨ihm, ihc⟩ := ih (0 + 1) evs₂ hrec
                                have ihc2 : List.count Ev.moveToDevice evs₂ ≤ 1 := by
                                  simpa using ihc
                                constructor
                                · intro e he
                                  simp only [List.cons_append, List.nil_append,
                                    List.mem_cons] at he
                                  rcases he with rfl | rfl | rfl | rfl | rfl | he
                                  · exact Or.inl rfl
                                  · exact Or.inr (Or.inl rfl)
                                  · exact Or.inr (Or.inr (Or.inl rfl))
                                  · exact Or.inr (Or.inr (Or.inr (Or.inl rfl)))
                                  · exact Or.inr (Or.inr (Or.inr (Or.inr rfl)))
                                  · exact ihm e he
                                · simp [List.count_append, List.count_cons,
                                    DEFAULT_CHECK_NUM_BATCH]
                                  omega
                        · simp only [hsz, reduceIte] at h
                          simp at h
      · simp only [if_neg hbc] at h
        cases hf : model.func (build_args model.params b.1) with
        | nondict => rw [hf] at h; simp at h
        | dict out =>
            rw [hf] at h
            simp only at h
            cases hl : losser out b.2 with
            | error e₂ => rw [hl] at h; simp at h
            | ok loss =>
                rw [hl] at h
                simp only at h
                cases hlb : lossBackward loss with
                | error e₂ => rw [hlb] at h; simp at h
                | ok u =>
                    rw [hlb] at h
                    simp only at h
                    have hle : DEFAULT_CHECK_NUM_BATCH ≤ bc + 1 := by
                      simp only [DEFAULT_CHECK_NUM_BATCH]
                      omega
                    rw [if_pos hle] at h
                    simp only [Except.ok.injEq] at h
                    subst h
                    refine ⟨?_, ?_⟩
                    · intro e he
                      simp only [List.mem_cons, List.not_mem_nil, or_false] at he
                      rcases he with rfl | rfl | rfl | rfl | rfl
                      · exact Or.inl rfl
                      · exact Or.inr (Or.inl rfl)
                      · exact Or.inr (Or.inr (Or.inl rfl))
                      · exact Or.inr (Or.inr (Or.inr (Or.inl rfl)))
                      · exact Or.inr (Or.inr (Or.inr (Or.inr rfl)))
                    · simp [hbc]

/-- Claim C9: `Trainer.__init__` raises a `ValueError` when exactly one of
`metrics` and `dev_data` is supplied (a Python-falsy `metrics` being an
absent or empty metric list): "No metric for dev_data evaluation." when
dev data comes without metrics, "No dev_data for evaluations, ..." when
metrics come without dev data — and when the two are consistent (both
present or both absent) neither of these errors can be raised. -/
theorem claim9_metrics_dev_consistency (train_data : List (Row α))
    (model : FModel (List α)) (predictAttr : Option (FModel (List α)))
    (losser : Losser α) (metrics : List (Metric α Rat)) (n_epochs batch_size : Nat)
    (print_every validate_every : Int) (dev_data : Option (List (Row α)))
    (save_path : Option String) (check_code_level : Int) (eval_sort_key : Option String)
    (shuffle : Nat → List (Row α) → List (Row α)) :
    (metrics = [] → dev_data.isSome = true →
      Trainer.init train_data model predictAttr losser metrics n_epochs batch_size
          print_every validate_every dev_data save_path check_code_level eval_sort_key
          shuffle = .error .valueErrorNoMetricForDev) ∧
    (metrics ≠ [] → dev_data = none →
      Trainer.init train_data model predictAttr losser metrics n_epochs batch_size
          print_every validate_every dev_data save_path check_code_level eval_sort_key
          shuffle = .error .valueErrorNoDevForMetrics) ∧
    PyError.isValueError .valueErrorNoMetricForDev = true ∧
    PyError.isValueError .valueErrorNoDevForMetrics = true ∧
    ((metrics = [] ↔ dev_data = none) →
      ∀ e, Trainer.init train_data model predictAttr losser metrics n_epochs batch_size
          print_every validate_every dev_data save_path check_code_level eval_sort_key
          shuffle = .error e →
        e ≠ .valueErrorNoMetricForDev ∧ e ≠ .valueErrorNoDevForMetrics) := by
  refine ⟨?_, ?_, rfl, rfl, ?_⟩
  · intro h1 h2
    subst h1
    simp [Trainer.init, h2]
  · intro h1 h2
    subst h2
    simp [Trainer.init, List.isEmpty_iff, h1]
  · intro hiff e he
    have hclass : ∀ e₁ : PyError, isCheckLoopError e₁ = true ∨ e₁ = .attributeError "_model" →
        e₁ ≠ .valueErrorNoMetricForDev ∧ e₁ ≠ .valueErrorNoDevForMetrics := by
      rintro e₁ (hcl | rfl)
      · constructor <;> (intro heq; subst heq; simp [isCheckLoopError] at hcl)
      · exact ⟨by decide, by decide⟩
    cases dev_data with
    | none =>
        have hm : metrics = [] := hiff.mpr rfl
        subst hm
        simp only [Trainer.init] at he
        rw [if_neg (by simp)] at he
        rw [if_neg (by simp)] at he
        cases hcc : (if -1 < check_code_level then
            _check_code train_data model predictAttr (prepare_losser losser)
              (prepare_metrics []) none
          else .ok []) with
        | error e₁ =>
            rw [hcc] at he
            simp only at he
            rw [← Except.error.inj he]
            apply hclass
            rcases (inferInstance : Decidable (-1 < check_code_level)) with hccl | hccl
            · rw [if_neg hccl] at hcc
              simp at hcc
            · rw [if_pos hccl] at hcc
              exact check_code_error_class train_data model predictAttr
                (prepare_losser losser) (prepare_metrics []) none e₁ hcc
        | ok cevs =>
            rw [hcc] at he
            simp at he
    | some dd =>
        have hm : metrics ≠ [] := by
          intro hmm
          exact Option.some_ne_none dd (hiff.mp hmm)
        simp only [Trainer.init] at he
        rw [if_neg (by simp [List.isEmpty_iff, hm])] at he
        rw [if_neg (by simp)] at he
        cases hcc : (if -1 < check_code_level then
            _check_code train_data model predictAttr (prepare_losser losser)
              (prepare_metrics metrics) (some dd)
          else .ok []) with
        | error e₁ =>
            rw [hcc] at he
            simp only at he
            rw [← Except.error.inj he]
            apply hclass
            rcases (inferInstance : Decidable (-1 < check_code_level)) with hccl | hccl
            · rw [if_neg hccl] at hcc
              simp at hcc
            · rw [if_pos hccl] at hcc
              exact check_code_error_class train_data model predictAttr
                (prepare_losser losser) (prepare_metrics metrics) (some dd) e₁ hcc
        | ok cevs =>
            rw [hcc] at he
            simp only at he
            rw [tester_init_raises dd model predictAttr (prepare_metrics metrics)
              batch_size false 0] at he
            simp only at he
            rw [← Except.error.inj he]
            exact ⟨by decide, by decide⟩

/-- Claim C9, witness: the error raised at a concrete inconsistent call
(dev data without metrics), and absence of the error at a consistent one. -/
theorem claim9_witness :
    Trainer.init [rowW] mW none losserW [] 1 1 (-1) (-1) (some [rowW]) none 0 none
      (fun _ l => l) = .error .valueErrorNoMetricForDev :=
  (claim9_metrics_dev_consistency [rowW] mW none losserW [] 1 1 (-1) (-1)
    (some [rowW]) none 0 none (fun _ l => l)).1 rfl rfl


/-- What a completed `Trainer.__init__` implies: the dev branch never
completes (its `Tester` construction raises), and the returned events are
exactly those of the pre-flight check (empty when the check is disabled). -/
theorem trainer_init_ok_elim (ds : List (Row α)) (model : FModel (List α))
    (predictAttr : Option (FModel (List α))) (losser : Losser α)
    (metrics : List (Metric α Rat)) (n_epochs batch_size : Nat)
    (print_every validate_every : Int) (dev_data : Option (List (Row α)))
    (save_path : Option String) (check_code_level : Int)
    (eval_sort_key : Option String) (shuffle : Nat → List (Row α) → List (Row α))
    (tr : Trainer α) (evs : List Ev)
    (h : Trainer.init ds model predictAttr losser metrics n_epochs batch_size
        print_every validate_every dev_data save_path check_code_level
        eval_sort_key shuffle = .ok (tr, evs)) :
    dev_data = none ∧
    ((-1 < check_code_level ∧
       _check_code ds model predictAttr (prepare_losser losser)
         (prepare_metrics metrics) dev_data = .ok evs) ∨
     (¬(-1 < check_code_level) ∧ evs = [])) := by
  simp only [Trainer.init] at h
  split at h
  · simp at h
  · split at h
    · simp at h
    · by_cases hccl : -1 < check_code_level
      · rw [if_pos hccl] at h
        cases hcc : _check_code ds model predictAttr (prepare_losser losser)
            (prepare_metrics metrics) dev_data with
        | error e₁ => rw [hcc] at h; simp at h
        | ok cevs =>
            rw [hcc] at h
            simp only at h
            cases dev_data with
            | some dd =>
                simp only at h
                rw [tester_init_raises dd model predictAttr (prepare_metrics metrics)
                  batch_size false 0] at h
                simp at h
            | none =>
                simp only [Except.ok.injEq, Prod.mk.injEq] at h
                obtain ⟨_, hevs⟩ := h
                refine ⟨rfl, Or.inl ⟨hccl, ?_⟩⟩
                rw [hevs]
      · rw [if_neg hccl] at h
        simp only at h
        cases dev_data with
        | some dd =>
            simp only at h
            rw [tester_init_raises dd model predictAttr (prepare_metrics metrics)
              batch_size false 0] at h
            simp at h
        | none =>
            simp only [Except.ok.injEq, Prod.mk.injEq] at h
            obtain ⟨_, hevs⟩ := h
            exact ⟨rfl, Or.inr ⟨hccl, hevs.symm⟩⟩

/-- Claim C8: with `check_code_level > -1`, the pre-flight check runs during
construction and gates it — any error it raises aborts `__init__` with that
error, and a completed `__init__` has performed no optimizer update (no
real training); the check processes at most `DEFAULT_CHECK_NUM_BATCH = 2`
batches, each of at most `DEFAULT_CHECK_BATCH_SIZE = 2` rows; and on the
first batch it raises `TypeError` when the model's forward returns a
non-dict, `TypeError` when the loss value is not a tensor, and `ValueError`
when the loss tensor is not a scalar. -/
theorem claim8_preflight_check (ds : List (Row α)) (model : FModel (List α))
    (predictAttr : Option (FModel (List α))) (losser : Losser α)
    (metrics : List (Metric α Rat)) (n_epochs batch_size : Nat)
    (print_every validate_every : Int) (dev_data : Option (List (Row α)))
    (save_path : Option String) (check_code_level : Int)
    (eval_sort_key : Option String) (shuffle : Nat → List (Row α) → List (Row α))
    (hccl : -1 < check_code_level) :
    (∀ e, (metrics = [] ↔ dev_data = none) →
      _check_code ds model predictAttr (prepare_losser losser)
          (prepare_metrics metrics) dev_data = .error e →
      Trainer.init ds model predictAttr losser metrics n_epochs batch_size
          print_every validate_every dev_data save_path check_code_level
          eval_sort_key shuffle = .error e) ∧
    (∀ tr evs, Trainer.init ds model predictAttr losser metrics n_epochs batch_size
          print_every validate_every dev_data save_path check_code_level
          eval_sort_key shuffle = .ok (tr, evs) →
      evs.count Ev.optStep = 0) ∧
    (∀ evs, _check_code ds model predictAttr (prepare_losser losser)
          (prepare_metrics metrics) dev_data = .ok evs →
      evs.count Ev.moveToDevice ≤ DEFAULT_CHECK_NUM_BATCH) ∧
    (∀ c ∈ chunk DEFAULT_CHECK_BATCH_SIZE ds, c.length ≤ DEFAULT_CHECK_BATCH_SIZE) ∧
    (∀ b rest, batchIter DEFAULT_CHECK_BATCH_SIZE ds = b :: rest →
      check_forward_error model.params b.1 = .ok () →
      ((model.func (build_args model.params b.1) = .nondict →
         _check_code ds model predictAttr (prepare_losser losser)
             (prepare_metrics metrics) dev_data = .error .typeErrorForwardNotDict) ∧
       (∀ out, model.func (build_args model.params b.1) = .dict out →
         ((prepare_losser losser) out b.2 = .ok .nontensor →
            _check_code ds model predictAttr (prepare_losser losser)
                (prepare_metrics metrics) dev_data = .error .typeErrorLossNotTensor) ∧
         (∀ size v, (prepare_losser losser) out b.2 = .ok (.tensor size v) →
            size ≠ [] →
            _check_code ds model predictAttr (prepare_losser losser)
                (prepare_metrics metrics) dev_data =
              .error .valueErrorLossNotScalar)))) := by
  refine ⟨?_, ?_, ?_, chunk_mem_length_le DEFAULT_CHECK_BATCH_SIZE ds, ?_⟩
  · intro e hiff hcc
    simp only [Trainer.init]
    rw [if_neg ?hc1, if_neg ?hc2, if_pos hccl, hcc]
    case hc1 =>
      rintro ⟨h1, h2⟩
      rw [List.isEmpty_iff] at h1
      rw [hiff] at h1
      subst h1
      simp at h2
    case hc2 =>
      rintro ⟨h1, h2⟩
      rw [Option.isNone_iff_eq_none] at h2
      rw [← hiff] at h2
      rw [List.isEmpty_iff] at h1
      exact h1 h2
  · intro tr evs h
    obtain ⟨hdev, hcase⟩ := trainer_init_ok_elim ds model predictAttr losser metrics
      n_epochs batch_size print_every validate_every dev_data save_path
      check_code_level eval_sort_key shuffle tr evs h
    rcases hcase with ⟨_, hcc⟩ | ⟨hn, _⟩
    · subst hdev
      simp only [_check_code] at hcc
      cases hcb : checkBatches model (prepare_losser losser) 0
          (batchIter DEFAULT_CHECK_BATCH_SIZE ds) with
      | error e₁ => rw [hcb] at hcc; simp at hcc
      | ok evs₁ =>
          rw [hcb] at hcc
          simp only [Except.ok.injEq] at hcc
          obtain ⟨hmem, _⟩ := checkBatches_ok_struct model (prepare_losser losser)
            _ 0 evs₁ hcb
          rw [List.count_eq_zero]
          intro hin
          rw [← hcc] at hin
          rcases hmem Ev.optStep hin with hx | hx | hx | hx | hx <;> simp at hx
    · exact absurd hccl hn
  · intro evs hcc
    simp only [_check_code] at hcc
    cases hcb : checkBatches model (prepare_losser losser) 0
        (batchIter DEFAULT_CHECK_BATCH_SIZE ds) with
    | error e₁ => rw [hcb] at hcc; simp at hcc
    | ok evs₁ =>
        rw [hcb] at hcc
        simp only at hcc
        cases dev_data with
        | none =>
            simp only [Except.ok.injEq] at hcc
            have hc := (checkBatches_ok_struct model (prepare_losser losser)
              _ 0 evs₁ hcb).2
            rw [← hcc]
            simpa using hc
        | some dd =>
            rw [tester_init_raises
              (ds.take (DEFAULT_CHECK_BATCH_SIZE * DEFAULT_CHECK_NUM_BATCH))
              model predictAttr (prepare_metrics metrics) DEFAULT_CHECK_BATCH_SIZE
              false (-1)] at hcc
            simp at hcc
  · intro b rest hbl hfc
    have hfirst : ∀ e₁ : PyError,
        checkBatches model (prepare_losser losser) 0 (b :: rest) = .error e₁ →
        _check_code ds model predictAttr (prepare_losser losser)
            (prepare_metrics metrics) dev_data = .error e₁ := by
      intro e₁ hcb
      simp only [_check_code, hbl, hcb]
    refine ⟨?_, ?_⟩
    · intro hnd
      apply hfirst
      simp only [checkBatches, reduceIte, hfc]
      rw [hnd]
    · intro out hdict
      refine ⟨?_, ?_⟩
      · intro hnt
        apply hfirst
        simp only [checkBatches, reduceIte, hfc]
        rw [hdict]
        simp only
        rw [hnt]
      · intro size v htensor hsize
        apply hfirst
        simp only [checkBatches, reduceIte, hfc]
        rw [hdict]
        simp only
        rw [htensor]
        simp only [if_neg hsize, reduceIte]

/-- A concrete model whose forward returns a non-dict. -/
def mBad : FModel (List Nat) := ⟨["a"], fun _ => PyRet.nondict⟩

/-- Claim C8, witness: at a concrete dataset and model whose forward
returns a non-dict, the pre-flight check raises the `TypeError`. -/
theorem claim8_witness :
    _check_code [rowW] mBad none (prepare_losser losserW) (prepare_metrics [])
      none = .error .typeErrorForwardNotDict :=
  ((claim8_preflight_check [rowW] mBad none losserW [] 1 1 (-1) (-1) none none 0
      none (fun _ l => l) (by decide)).2.2.2.2 (collate [rowW]) [] rfl rfl).1 rfl

theorem validationEv_not_ctl (e : Ev) (he : e.isValidationEv = true) :
    (∀ s, e ≠ Ev.midValidate s) ∧ (∀ n, e ≠ Ev.endEpochValidate n) ∧
    (∀ n, e ≠ Ev.epochStart n) := by
  cases e <;> simp_all [Ev.isValidationEv, Ev.isTesterEv]

theorem evEpochStart_eq_none (e : Ev) (he : ∀ n, e ≠ Ev.epochStart n) :
    evEpochStart e = none := by
  cases e <;> simp_all [evEpochStart]

theorem evEndEpoch_eq_none (e : Ev) (he : ∀ n, e ≠ Ev.endEpochValidate n) :
    evEndEpoch e = none := by
  cases e <;> simp_all [evEndEpoch]

theorem do_validation_step (tr : Trainer α) (st st₂ : TrState) (evs : List Ev)
    (h : Trainer.do_validation tr st = .ok (st₂, evs)) : st₂.step = st.step := by
  cases htst : tr.tester with
  | none => simp [Trainer.do_validation, htst] at h
  | some t =>
      cases htt : Tester.testT t with
      | error e => simp [Trainer.do_validation, htst, htt] at h
      | ok p =>
          obtain ⟨res, tevs⟩ := p
          cases hvu : Trainer.validation_update tr.save_path tr.eval_sort_key
              st.best_accuracy res with
          | error e => simp [Trainer.do_validation, htst, htt, hvu] at h
          | ok q =>
              obtain ⟨best₂, saved⟩ := q
              simp only [Trainer.do_validation, htst, htt, hvu, Except.ok.injEq,
                Prod.mk.injEq] at h
              rw [← h.1]

theorem processBatch_ok (tr : Trainer α) (st st₂ : TrState) (b : BatchPair α)
    (evs : List Ev) (h : Trainer.processBatch tr st b = .ok (st₂, evs)) :
    st₂.step = st.step + 1 ∧
    (∀ s, Ev.midValidate s ∈ evs ↔
      (s = st.step ∧ 0 < tr.validate_every ∧ (s : Int) % tr.validate_every = 0)) ∧
    (∀ e, Ev.endEpochValidate e ∉ evs) ∧
    (∀ e, Ev.epochStart e ∉ evs) := by
  cases hdf : Trainer.data_forward tr.model b.1 with
  | error e => simp [Trainer.processBatch, hdf] at h
  | ok pred =>
  cases hls : tr.losser pred b.2 with
  | error e => simp [Trainer.processBatch, hdf, hls] at h
  | ok loss =>
  cases hbw : lossBackward loss with
  | error e => simp [Trainer.processBatch, hdf, hls, hbw] at h
  | ok u =>
  simp only [Trainer.processBatch, hdf, hls, hbw] at h
  have hifprint : ∀ (c : Prop) (inst : Decidable c) (x : Ev),
      x ∈ (if c then [Ev.printLog] else []) → x = Ev.printLog := by
    intro c inst x hx
    split at hx <;> simp_all
  have hpre : ∀ x ∈ ([Ev.moveToDevice, Ev.forwardCall, Ev.lossCall, Ev.zeroGrad,
      Ev.backward, Ev.optStep, Ev.logScalar] ++
      (if 0 < tr.print_every ∧ (st.step : Int) % tr.print_every = 0
       then [Ev.printLog] else [])),
      (∀ s, x ≠ Ev.midValidate s) ∧ (∀ n, x ≠ Ev.endEpochValidate n) ∧
      (∀ n, x ≠ Ev.epochStart n) := by
    intro x hx
    rcases List.mem_append.mp hx with hx | hx
    · simp only [List.mem_cons, List.not_mem_nil, or_false] at hx
      rcases hx with rfl | rfl | rfl | rfl | rfl | rfl | rfl <;> simp
    · have := hifprint _ _ x hx
      subst this
      simp
  split at h
  case isTrue hcond =>
    cases hdv : Trainer.do_validation tr st with
    | error e => rw [hdv] at h; simp at h
    | ok q =>
        obtain ⟨st₃, vevs⟩ := q
        rw [hdv] at h
        simp only [Except.ok.injEq, Prod.mk.injEq] at h
        obtain ⟨hst, hevs⟩ := h
        have hvnc := fun e he =>
          validationEv_not_ctl e (do_validation_evs tr st st₃ vevs hdv e he)
        refine ⟨by rw [← hst], ?_, ?_, ?_⟩
        · intro s
          rw [← hevs]
          constructor
          · intro hmem
            rcases List.mem_append.mp hmem with hmem | hmem
            · rcases List.mem_append.mp hmem with hmem | hmem
              · exact absurd rfl ((hpre _ hmem).1 s)
              · have hms := Ev.midValidate.inj (List.mem_singleton.mp hmem)
                subst hms
                exact ⟨rfl, hcond⟩
            · exact absurd rfl ((hvnc _ hmem).1 s)
          · rintro ⟨rfl, _⟩
            exact List.mem_append.mpr (Or.inl (List.mem_append.mpr
              (Or.inr (List.mem_singleton.mpr rfl))))
        · intro n hn
          rw [← hevs] at hn
          rcases List.mem_append.mp hn with hn | hn
          · rcases List.mem_append.mp hn with hn | hn
            · exact absurd rfl ((hpre _ hn).2.1 n)
            · simp at hn
          · exact absurd rfl ((hvnc _ hn).2.1 n)
        · intro n hn
          rw [← hevs] at hn
          rcases List.mem_append.mp hn with hn | hn
          · rcases List.mem_append.mp hn with hn | hn
            · exact absurd rfl ((hpre _ hn).2.2 n)
            · simp at hn
          · exact absurd rfl ((hvnc _ hn).2.2 n)
  case isFalse hcond =>
    simp only [Except.ok.injEq, Prod.mk.injEq] at h
    obtain ⟨hst, hevs⟩ := h
    refine ⟨by rw [← hst], ?_, ?_, ?_⟩
    · intro s
      rw [← hevs]
      constructor
      · intro hmem
        exact absurd rfl ((hpre _ hmem).1 s)
      · rintro ⟨rfl, hc⟩
        exact absurd hc hcond
    · intro n hn
      rw [← hevs] at hn
      exact absurd rfl ((hpre _ hn).2.1 n)
    · intro n hn
      rw [← hevs] at hn
      exact absurd rfl ((hpre _ hn).2.2 n)

theorem runBatches_ok (tr : Trainer α) :
    ∀ (bl : List (BatchPair α)) (st st₂ : TrState) (evs : List Ev),
      Trainer.runBatches tr st bl = .ok (st₂, evs) →
      st₂.step = st.step + bl.length ∧
      (∀ s, Ev.midValidate s ∈ evs ↔
        (st.step ≤ s ∧ s < st.step + bl.length ∧ 0 < tr.validate_every ∧
         (s : Int) % tr.validate_every = 0)) ∧
      (∀ e, Ev.endEpochValidate e ∉ evs) ∧
      (∀ e, Ev.epochStart e ∉ evs) := by
  intro bl
  induction bl with
  | nil =>
      intro st st₂ evs h
      simp only [Trainer.runBatches, Except.ok.injEq, Prod.mk.injEq] at h
      obtain ⟨h1, h2⟩ := h
      subst h1
      subst h2
      refine ⟨by simp, ?_, by simp, by simp⟩
      intro s
      simp only [List.not_mem_nil, false_iff]
      rintro ⟨h1, h2, _⟩
      simp only [List.length_nil] at h2
      omega
  | cons b rest ih =>
      intro st st₂ evs h
      simp only [Trainer.runBatches] at h
      cases hpb : Trainer.processBatch tr st b with
      | error e => rw [hpb] at h; simp at h
      | ok p =>
          obtain ⟨st₃, evs₁⟩ := p
          rw [hpb] at h
          simp only at h
          cases hrb : Trainer.runBatches tr st₃ rest with
          | error e => rw [hrb] at h; simp at h
          | ok q =>
              obtain ⟨st₄, evs₂⟩ := q
              rw [hrb] at h
              simp only [Except.ok.injEq, Prod.mk.injEq] at h
              obtain ⟨h1, h2⟩ := h
              subst h1
              obtain ⟨hpstep, hpmid, hpend, hpes⟩ := processBatch_ok tr st st₃ b evs₁ hpb
              obtain ⟨histep, himid, hiend, hies⟩ := ih st₃ st₄ evs₂ hrb
              refine ⟨by rw [histep, hpstep, List.length_cons]; omega, ?_, ?_, ?_⟩
              · intro s
                rw [← h2, List.mem_append, hpmid s, himid s, hpstep, List.length_cons]
                constructor
                · rintro (⟨rfl, hc⟩ | ⟨hle, hlt, hc⟩)
                  · exact ⟨le_refl _, by omega, hc⟩
                  · exact ⟨by omega, by omega, hc⟩
                · rintro ⟨hle, hlt, hc⟩
                  by_cases hs : s = st.step
                  · exact Or.inl ⟨hs, hc⟩
                  · exact Or.inr ⟨by omega, by omega, hc⟩
              · intro n hn
                rw [← h2] at hn
                rcases List.mem_append.mp hn with hn | hn
                · exact hpend n hn
                · exact hiend n hn
              · intro n hn
                rw [← h2] at hn
                rcases List.mem_append.mp hn with hn | hn
                · exact hpes n hn
                · exact hies n hn

theorem runEpoch_ok (tr : Trainer α) (st st₂ : TrState) (epoch : Nat) (evs : List Ev)
    (h : Trainer.runEpoch tr st epoch = .ok (st₂, evs)) :
    st₂.step = st.step +
      (batchIter tr.batch_size (tr.shuffle epoch tr.train_data)).length ∧
    (∀ s, Ev.midValidate s ∈ evs ↔
      (st.step ≤ s ∧ s < st₂.step ∧ 0 < tr.validate_every ∧
       (s : Int) % tr.validate_every = 0)) ∧
    evs.filterMap evEpochStart = [epoch] ∧
    evs.filterMap evEndEpoch =
      (if tr.tester.isSome ∧ tr.validate_every ≤ 0 then [epoch] else []) := by
  simp only [Trainer.runEpoch] at h
  cases hrb : Trainer.runBatches tr st
      (batchIter tr.batch_size (tr.shuffle epoch tr.train_data)) with
  | error e => rw [hrb] at h; simp at h
  | ok p =>
      obtain ⟨st₃, evs₁⟩ := p
      rw [hrb] at h
      simp only at h
      obtain ⟨histep, himid, hiend, hies⟩ := runBatches_ok tr _ st st₃ evs₁ hrb
      have hnone₁ : evs₁.filterMap evEpochStart = [] := by
        rw [List.filterMap_eq_nil_iff]
        intro e he
        exact evEpochStart_eq_none e (fun n hn => hies n (hn ▸ he))
      have hnone₂ : evs₁.filterMap evEndEpoch = [] := by
        rw [List.filterMap_eq_nil_iff]
        intro e he
        exact evEndEpoch_eq_none e (fun n hn => hiend n (hn ▸ he))
      split at h
      case isTrue hcond =>
        cases hdv : Trainer.do_validation tr st₃ with
        | error e => rw [hdv] at h; simp at h
        | ok q =>
            obtain ⟨st₄, vevs⟩ := q
            rw [hdv] at h
            simp only [Except.ok.injEq, Prod.mk.injEq] at h
            obtain ⟨h1, h2⟩ := h
            subst h1
            have hvnc := fun e he =>
              validationEv_not_ctl e (do_validation_evs tr st₃ _ vevs hdv e he)
            have hvstep := do_validation_step tr st₃ _ vevs hdv
            have hvn₁ : vevs.filterMap evEpochStart = [] := by
              rw [List.filterMap_eq_nil_iff]
              intro e he
              exact evEpochStart_eq_none e ((hvnc e he).2.2)
            have hvn₂ : vevs.filterMap evEndEpoch = [] := by
              rw [List.filterMap_eq_nil_iff]
              intro e he
              exact evEndEpoch_eq_none e ((hvnc e he).2.1)
            refine ⟨by rw [hvstep, histep], ?_, ?_, ?_⟩
            · intro s
              rw [← h2]
              simp only [List.cons_append, List.mem_cons, List.mem_append]
              constructor
              · rintro (hx | hx | hx | hx)
                · exact absurd hx (by simp)
                · rw [hvstep, histep]
                  exact (himid s).mp hx
                · exact absurd hx (by simp)
                · exact absurd rfl ((hvnc _ hx).1 s)
              · intro hx
                rw [hvstep, histep] at hx
                exact Or.inr (Or.inl ((himid s).mpr hx))
            · rw [← h2]
              simp only [List.cons_append, List.filterMap_cons, List.filterMap_append,
                evEpochStart, hnone₁, hvn₁]
              rfl
            · rw [← h2]
              simp only [List.cons_append, List.filterMap_cons, List.filterMap_append,
                evEpochStart, evEndEpoch, hnone₂, hvn₂, if_pos hcond]
              rfl
      case isFalse hcond =>
        simp only [Except.ok.injEq, Prod.mk.injEq] at h
        obtain ⟨h1, h2⟩ := h
        subst h1
        refine ⟨histep, ?_, ?_, ?_⟩
        · intro s
          rw [← h2]
          simp only [List.mem_cons]
          rw [histep]
          constructor
          · rintro (hx | hx)
            · exact absurd hx (by simp)
            · exact (himid s).mp hx
          · intro hx
            exact Or.inr ((himid s).mpr hx)
        · rw [← h2]
          simp only [List.filterMap_cons, evEpochStart, hnone₁]
        · rw [← h2]
          simp only [List.filterMap_cons, evEpochStart, evEndEpoch, hnone₂,
            if_neg hcond]

theorem epochLoop_ok (tr : Trainer α) :
    ∀ (remaining e₀ : Nat) (st st₂ : TrState) (evs : List Ev),
      Trainer.epochLoop tr st e₀ remaining = .ok (st₂, evs) →
      st.step ≤ st₂.step ∧
      (∀ s, Ev.midValidate s ∈ evs ↔
        (st.step ≤ s ∧ s < st₂.step ∧ 0 < tr.validate_every ∧
         (s : Int) % tr.validate_every = 0)) ∧
      evs.filterMap evEpochStart = (List.range remaining).map (fun i => e₀ + i) ∧
      evs.filterMap evEndEpoch =
        (if tr.tester.isSome ∧ tr.validate_every ≤ 0 then
          (List.range remaining).map (fun i => e₀ + i) else []) := by
  intro remaining
  induction remaining with
  | zero =>
      intro e₀ st st₂ evs h
      simp only [Trainer.epochLoop, Except.ok.injEq, Prod.mk.injEq] at h
      obtain ⟨h1, h2⟩ := h
      subst h1
      subst h2
      refine ⟨le_refl _, ?_, by simp, by simp⟩
      intro s
      simp only [List.not_mem_nil, false_iff]
      rintro ⟨h1, h2, _⟩
      omega
  | succ r ih =>
      intro e₀ st st₂ evs h
      simp only [Trainer.epochLoop] at h
      cases hre : Trainer.runEpoch tr st e₀ with
      | error e => rw [hre] at h; simp at h
      | ok p =>
          obtain ⟨st₃, evs₁⟩ := p
          rw [hre] at h
          simp only at h
          cases hel : Trainer.epochLoop tr st₃ (e₀ + 1) r with
          | error e => rw [hel] at h; simp at h
          | ok q =>
              obtain ⟨st₄, evs₂⟩ := q
              rw [hel] at h
              simp only [Except.ok.injEq, Prod.mk.injEq] at h
              obtain ⟨h1, h2⟩ := h
              subst h1
              obtain ⟨hestep, hemid, hees, heend⟩ := runEpoch_ok tr st st₃ e₀ evs₁ hre
              obtain ⟨histep, himid, hies, hiend⟩ := ih (e₀ + 1) st₃ st₄ evs₂ hel
              have hstep₃ : st.step ≤ st₃.step := by rw [hestep]; omega
              have hrange : (List.range (r + 1)).map (fun i => e₀ + i) =
                  e₀ :: (List.range r).map (fun i => (e₀ + 1) + i) := by
                rw [List.range_succ_eq_map, List.map_cons, List.map_map]
                refine congrArg₂ _ (by omega) ?_
                refine List.map_congr_left ?_
                intro i _
                simp only [Function.comp]
                omega
              refine ⟨le_trans hstep₃ histep, ?_, ?_, ?_⟩
              · intro s
                rw [← h2, List.mem_append, hemid s, himid s]
                constructor
                · rintro (⟨hl, hlt, hc⟩ | ⟨hl, hlt, hc⟩)
                  · exact ⟨hl, by omega, hc⟩
                  · exact ⟨by omega, hlt, hc⟩
                · rintro ⟨hl, hlt, hc⟩
                  by_cases hs : s < st₃.step
                  · exact Or.inl ⟨hl, hs, hc⟩
                  · exact Or.inr ⟨by omega, hlt, hc⟩
              · rw [← h2, List.filterMap_append, hees, hies, hrange]
                rfl
              · rw [← h2, List.filterMap_append, heend, hiend, hrange]
                split
                · rfl
                · rfl

/-- Claim C6: with dev data present, mid-epoch validation fires exactly at
the global batch steps divisible by `validate_every` when it is positive —
and then no end-of-epoch validation ever runs; when `validate_every <= 0`,
validation runs exactly once at the end of every epoch (epochs `1..n`) and
never mid-epoch.  The step counter starts at `0` and counts batches across
epochs. -/
theorem claim6_validation_schedule (tr : Trainer α) (stF : TrState) (evs : List Ev)
    (hdev : tr.tester.isSome = true)
    (h : Trainer.train tr = .ok (stF, evs)) :
    (0 < tr.validate_every →
      (∀ s, Ev.midValidate s ∈ evs ↔
        (s < stF.step ∧ (s : Int) % tr.validate_every = 0)) ∧
      (∀ e, Ev.endEpochValidate e ∉ evs)) ∧
    (tr.validate_every ≤ 0 →
      (∀ s, Ev.midValidate s ∉ evs) ∧
      evs.filterMap evEndEpoch = (List.range tr.n_epochs).map (fun i => 1 + i)) := by
  simp only [Trainer.train] at h
  cases hel : Trainer.epochLoop tr ⟨0, 0⟩ 1 tr.n_epochs with
  | error e => rw [hel] at h; simp at h
  | ok p =>
      obtain ⟨st₃, evs₁⟩ := p
      rw [hel] at h
      simp only [Except.ok.injEq, Prod.mk.injEq] at h
      obtain ⟨h1, h2⟩ := h
      obtain ⟨_, hmid, hes, hend⟩ := epochLoop_ok tr tr.n_epochs 1 ⟨0, 0⟩ st₃ evs₁ hel
      constructor
      · intro hve
        constructor
        · intro s
          rw [← h2, List.mem_cons]
          constructor
          · rintro (hx | hx)
            · exact absurd hx (by simp)
            · have := (hmid s).mp hx
              exact ⟨by rw [← h1]; exact this.2.1, this.2.2.2⟩
          · rintro ⟨hs, hmod⟩
            refine Or.inr ((hmid s).mpr ⟨Nat.zero_le s, ?_, hve, hmod⟩)
            rw [h1]
            exact hs
        · intro e he
          rw [← h2, List.mem_cons] at he
          rcases he with he | he
          · exact absurd he (by simp)
          · have hcond : ¬(tr.tester.isSome = true ∧ tr.validate_every ≤ 0) := by
              rintro ⟨_, hle⟩
              omega
            rw [if_neg hcond] at hend
            have : (e : Nat) ∈ evs₁.filterMap evEndEpoch :=
              List.mem_filterMap.mpr ⟨Ev.endEpochValidate e, he, rfl⟩
            rw [hend] at this
            simp at this
      · intro hve
        constructor
        · intro s hs
          rw [← h2, List.mem_cons] at hs
          rcases hs with hs | hs
          · exact absurd hs (by simp)
          · have := (hmid s).mp hs
            omega
        · rw [← h2]
          simp only [List.filterMap_cons, evEndEpoch]
          rw [hend, if_pos ⟨hdev, hve⟩]

/-- A dev tester (no rows, no metrics) for the validation witnesses. -/
def tDev : Tester Nat Rat := ⟨[], mW, [], 1, -1⟩

/-- A concrete trainer with dev data and end-of-epoch validation. -/
def trDev : Trainer Nat :=
  ⟨[rowW], mW, losserW, 1, 1, -1, -1, none, some tDev, none, fun _ l => l⟩

/-- Claim C6, witness: a concrete run with `validate_every <= 0` validates
exactly once, at the end of the single epoch. -/
theorem claim6_witness :
    trDev.tester.isSome = true ∧
    List.filterMap evEndEpoch
      [Ev.setModeTrain, Ev.epochStart 1, Ev.moveToDevice, Ev.forwardCall,
       Ev.lossCall, Ev.zeroGrad, Ev.backward, Ev.optStep, Ev.logScalar,
       Ev.endEpochValidate 1, Ev.setModeEval, Ev.noGradBegin, Ev.noGradEnd,
       Ev.setModeTrain] = [1] :=
  ⟨rfl,
   ((claim6_validation_schedule trDev ⟨1, 0⟩
      [Ev.setModeTrain, Ev.epochStart 1, Ev.moveToDevice, Ev.forwardCall,
       Ev.lossCall, Ev.zeroGrad, Ev.backward, Ev.optStep, Ev.logScalar,
       Ev.endEpochValidate 1, Ev.setModeEval, Ev.noGradBegin, Ev.noGradEnd,
       Ev.setModeTrain] rfl rfl).2 (by decide)).2⟩

/-- Claim C5: `Trainer.train` performs exactly `n_epochs` passes (numbered
`1..n`), each pass drawing the training rows in the (randomized) order the
sampler produced and batching them with the fixed `batch_size` — the rows
of one pass's batches are a permutation of the whole training data, every
batch holding at most `batch_size` rows — while the batches `Tester.test`
iterates cover its dataset in original, sequential order. -/
theorem claim5_epochs_randomized_vs_sequential (tr : Trainer α) {γ : Type}
    (t : Tester α γ) (stF : TrState) (evs : List Ev)
    (hbs : tr.batch_size ≠ 0) (htbs : t.batch_size ≠ 0)
    (hsh : ∀ e, (tr.shuffle e tr.train_data).Perm tr.train_data)
    (h : Trainer.train tr = .ok (stF, evs)) :
    evs.filterMap evEpochStart = (List.range tr.n_epochs).map (fun i => 1 + i) ∧
    (∀ e, ((chunk tr.batch_size (tr.shuffle e tr.train_data)).flatten).Perm
      tr.train_data) ∧
    (∀ e, ∀ c ∈ chunk tr.batch_size (tr.shuffle e tr.train_data),
      c.length ≤ tr.batch_size) ∧
    (chunk t.batch_size t.data).flatten = t.data := by
  refine ⟨?_, ?_, ?_, chunk_flatten t.batch_size htbs t.data⟩
  · simp only [Trainer.train] at h
    cases hel : Trainer.epochLoop tr ⟨0, 0⟩ 1 tr.n_epochs with
    | error e => rw [hel] at h; simp at h
    | ok p =>
        obtain ⟨st₃, evs₁⟩ := p
        rw [hel] at h
        simp only [Except.ok.injEq, Prod.mk.injEq] at h
        obtain ⟨h1, h2⟩ := h
        obtain ⟨_, _, hes, _⟩ := epochLoop_ok tr tr.n_epochs 1 ⟨0, 0⟩ st₃ evs₁ hel
        rw [← h2]
        simp only [List.filterMap_cons, evEpochStart]
        exact hes
  · intro e
    rw [chunk_flatten tr.batch_size hbs]
    exact hsh e
  · intro e
    exact chunk_mem_length_le tr.batch_size (tr.shuffle e tr.train_data)

/-- Claim C5, witness: a concrete one-epoch run (identity sampler draw is a
permutation) and a concrete tester whose single batch is its dataset in
order. -/
theorem claim5_witness :
    List.filterMap evEpochStart
      [Ev.setModeTrain, Ev.epochStart 1, Ev.moveToDevice, Ev.forwardCall,
       Ev.lossCall, Ev.zeroGrad, Ev.backward, Ev.optStep, Ev.logScalar] = [1] ∧
    (chunk tW10.batch_size tW10.data).flatten = tW10.data :=
  ⟨(claim5_epochs_randomized_vs_sequential trW tW10 ⟨1, 0⟩
      [Ev.setModeTrain, Ev.epochStart 1, Ev.moveToDevice, Ev.forwardCall,
       Ev.lossCall, Ev.zeroGrad, Ev.backward, Ev.optStep, Ev.logScalar]
      (by decide) (by decide) (fun e => List.Perm.refl _) rfl).1,
   (claim5_epochs_randomized_vs_sequential trW tW10 ⟨1, 0⟩
      [Ev.setModeTrain, Ev.epochStart 1, Ev.moveToDevice, Ev.forwardCall,
       Ev.lossCall, Ev.zeroGrad, Ev.backward, Ev.optStep, Ev.logScalar]
      (by decide) (by decide) (fun e => List.Perm.refl _) rfl).2.2.2⟩
